import Mathlib

/-!
# Verification of the DV / LS routing engine

A shallow embedding of the two router implementations (`DVrouter.py`,
`LSrouter.py`) of the NetworkingFinal repository, together with proofs of
the behavioural claims about them.

Modelling conventions:
* Python `dict`s are insertion-ordered association lists with unique keys;
  `dictInsert` updates an existing key in place (keeping its position, as
  CPython does) and appends a fresh key at the end.  Iteration over a dict
  is iteration over the list.
* Addresses are `String`, ports are `Nat`, link costs and times are `Nat`
  (the simulator drives the routers with non-negative integer costs; the
  heartbeat comparison, which in Python is evaluated over unbounded signed
  integers, is carried out in `Int`).
* A handler returns its successor state together with the list of
  `send(port, packet)` calls it performed, in order.
-/

/-- Insertion-ordered association list standing in for a Python `dict`. -/
abbrev Dict (α β : Type) := List (α × β)

/-- `d[k]` as an option: the value at the first entry whose key is `k`. -/
def alookup [DecidableEq α] : Dict α β → α → Option β
  | [], _ => none
  | (a, b) :: t, k => if a = k then some b else alookup t k

/-- `d[k] = v` with CPython semantics: an existing key keeps its position and
gets the new value, a fresh key is appended at the end. -/
def dictInsert [DecidableEq α] : Dict α β → α → β → Dict α β
  | [], k, v => [(k, v)]
  | (a, b) :: t, k, v => if a = k then (k, v) :: t else (a, b) :: dictInsert t k v

/-- `d.pop(k)` / `del d[k]`: drop the first entry whose key is `k`. -/
def eraseKey [DecidableEq α] : Dict α β → α → Dict α β
  | [], _ => []
  | (a, b) :: t, k => if a = k then t else (a, b) :: eraseKey t k

@[simp] theorem alookup_nil [DecidableEq α] (k : α) :
    alookup ([] : Dict α β) k = none := rfl

@[simp] theorem alookup_cons [DecidableEq α] (a : α) (b : β) (t : Dict α β) (k : α) :
    alookup ((a, b) :: t) k = if a = k then some b else alookup t k := rfl

theorem alookup_dictInsert_self [DecidableEq α] (m : Dict α β) (k : α) (v : β) :
    alookup (dictInsert m k v) k = some v := by
  induction m with
  | nil => simp [dictInsert, alookup]
  | cons hd t ih =>
    obtain ⟨a, b⟩ := hd
    by_cases h : a = k <;> simp [dictInsert, alookup, h, ih]

theorem alookup_dictInsert_ne [DecidableEq α] (m : Dict α β) (k k' : α) (v : β)
    (h : k' ≠ k) : alookup (dictInsert m k v) k' = alookup m k' := by
  have hk : k ≠ k' := Ne.symm h
  induction m with
  | nil => simp [dictInsert, alookup, hk]
  | cons hd t ih =>
    obtain ⟨a, b⟩ := hd
    by_cases hak : a = k
    · subst hak
      simp [dictInsert, alookup, hk]
    · simp only [dictInsert, if_neg hak, alookup_cons]
      by_cases hak' : a = k' <;> simp [hak', ih]

theorem isSome_alookup_dictInsert [DecidableEq α] (m : Dict α β) (k k' : α) (v : β)
    (h : (alookup m k').isSome = true) :
    (alookup (dictInsert m k v) k').isSome = true := by
  by_cases hk : k' = k
  · subst hk; simp [alookup_dictInsert_self]
  · rw [alookup_dictInsert_ne m k k' v hk]; exact h

theorem isSome_alookup_of_mem [DecidableEq α] {m : Dict α β} {k : α} {v : β}
    (h : (k, v) ∈ m) : (alookup m k).isSome = true := by
  induction m with
  | nil => cases h
  | cons hd t ih =>
    obtain ⟨a, b⟩ := hd
    rcases List.mem_cons.mp h with h1 | h1
    · cases h1; simp [alookup]
    · by_cases hak : a = k <;> simp [alookup, hak, ih h1]

/-- Every value that `alookup` can return after inserting satisfies `P`
provided the old values and the inserted value do. -/
theorem alookup_dictInsert_forall [DecidableEq α] {m : Dict α β} {P : β → Prop}
    {k₀ : α} {v₀ : β}
    (hm : ∀ k v, alookup m k = some v → P v) (hv : P v₀) :
    ∀ k v, alookup (dictInsert m k₀ v₀) k = some v → P v := by
  intro k v hkv
  by_cases hk : k = k₀
  · subst hk
    rw [alookup_dictInsert_self] at hkv
    cases hkv; exact hv
  · rw [alookup_dictInsert_ne m k₀ k v₀ hk] at hkv
    exact hm k v hkv

/-! ## DV router model (`DVrouter.py`) -/

/-- A packet as the DV router sees it.  DV routing packets carry the sender's
distance vector itself (`content=self.dv.copy()`); traceroute (data) packets
carry only the address pair that forwarding consults. -/
inductive DVPacket where
  | traceroute (srcAddr dstAddr : String)
  | routing (srcAddr dstAddr : String) (content : Dict String Nat)
  deriving DecidableEq, Repr

/-- State of `DVrouter`: `neighbors : port -> (neighbor_addr, cost)`,
`dv : dest -> cost`, `dv_from_neighbors : neighbor_addr -> vector`,
`forwarding_table : dest -> port`. -/
structure DVState where
  addr : String
  heartbeatTime : Nat
  lastTime : Nat
  neighbors : Dict Nat (String × Nat)
  dv : Dict String Nat
  dvFromNeighbors : Dict String (Dict String Nat)
  forwardingTable : Dict String Nat
  deriving DecidableEq, Repr

/-- `DVrouter.__init__`. -/
def dvInit (addr : String) (heartbeatTime : Nat) : DVState :=
  { addr := addr, heartbeatTime := heartbeatTime, lastTime := 0,
    neighbors := [], dv := [(addr, 0)], dvFromNeighbors := [],
    forwardingTable := [] }

/-- The relaxation step shared by both loops of `update_forwarding_table`:
`if dest not in new_dv or total < new_dv[dest]: new_dv[dest] = total;
new_ft[dest] = port`. -/
def relax (st : Dict String Nat × Dict String Nat) (dest : String)
    (total : Nat) (outPort : Nat) : Dict String Nat × Dict String Nat :=
  match alookup st.1 dest with
  | none => (dictInsert st.1 dest total, dictInsert st.2 dest outPort)
  | some old =>
      if total < old then (dictInsert st.1 dest total, dictInsert st.2 dest outPort)
      else st

/-- `DVrouter.update_forwarding_table`, as a function of the pieces of state
it reads.  Phase one folds in the direct neighbors; phase two relaxes through
each stored neighbor vector, where the port to a neighbor address is the first
matching entry of `neighbors` (`next(p for p, (addr, _) in ... if addr == nbr)`)
and `self.neighbors[out_port][1]` is that entry's cost, ports being dict keys.
Returns the `(new_dv, new_ft)` pair that is committed to the state. -/
def updateForwardingTable (addr : String) (neighbors : Dict Nat (String × Nat))
    (dvFromNeighbors : Dict String (Dict String Nat)) :
    Dict String Nat × Dict String Nat :=
  let init : Dict String Nat × Dict String Nat := ([(addr, 0)], [])
  let afterDirect := neighbors.foldl
    (fun st pnc => relax st pnc.2.1 pnc.2.2 pnc.1) init
  dvFromNeighbors.foldl
    (fun st nv =>
      match neighbors.find? (fun e => e.2.1 = nv.1) with
      | none => st
      | some (outPort, _, costToNbr) =>
          nv.2.foldl
            (fun st2 dc =>
              if dc.1 = addr then st2
              else relax st2 dc.1 (costToNbr + dc.2) outPort) st)
    afterDirect

/-- `DVrouter.send_dv_to_neighbors`: one routing packet per neighbor, carrying
a snapshot of the current vector. -/
def dvSendAll (s : DVState) : List (Nat × DVPacket) :=
  s.neighbors.map (fun pnc => (pnc.1, DVPacket.routing s.addr pnc.2.1 s.dv))

/-- `DVrouter.handle_new_link`. -/
def dvHandleNewLink (s : DVState) (port : Nat) (endpoint : String) (cost : Nat) :
    DVState × List (Nat × DVPacket) :=
  let s := { s with neighbors := dictInsert s.neighbors port (endpoint, cost) }
  let s := { s with dvFromNeighbors := dictInsert s.dvFromNeighbors endpoint [] }
  let s :=
    if (match alookup s.dv endpoint with
        | none => true
        | some old => cost < old) then
      { s with dv := dictInsert s.dv endpoint cost,
               forwardingTable := dictInsert s.forwardingTable endpoint port }
    else s
  (s, dvSendAll s)

/-- `DVrouter.handle_remove_link`. -/
def dvHandleRemoveLink (s : DVState) (port : Nat) :
    DVState × List (Nat × DVPacket) :=
  match alookup s.neighbors port with
  | none => (s, [])
  | some (neighborAddr, _) =>
      let s := { s with neighbors := eraseKey s.neighbors port,
                        dvFromNeighbors := eraseKey s.dvFromNeighbors neighborAddr }
      let p := updateForwardingTable s.addr s.neighbors s.dvFromNeighbors
      let s := { s with dv := p.1, forwardingTable := p.2 }
      (s, dvSendAll s)

/-- `DVrouter.handle_time`.  The comparison happens over Python's unbounded
signed integers. -/
def dvHandleTime (s : DVState) (timeMs : Nat) : DVState × List (Nat × DVPacket) :=
  if (timeMs : Int) - (s.lastTime : Int) ≥ (s.heartbeatTime : Int) then
    let s := { s with lastTime := timeMs }
    (s, dvSendAll s)
  else (s, [])

/-- Python dict equality: same key set and pointwise equal values
(order-insensitive), used by `self.dv_from_neighbors[neighbor] != their_dv`. -/
def dictEqb (a b : Dict String Nat) : Bool :=
  a.all (fun kv => alookup b kv.1 = alookup a kv.1) &&
  b.all (fun kv => alookup a kv.1 = alookup b kv.1)

/-- `DVrouter.handle_packet`. -/
def dvHandlePacket (s : DVState) (pkt : DVPacket) :
    DVState × List (Nat × DVPacket) :=
  match pkt with
  | DVPacket.traceroute _ dstAddr =>
      match alookup s.forwardingTable dstAddr with
      | some outPort => (s, [(outPort, pkt)])
      | none => (s, [])
  | DVPacket.routing srcAddr _ content =>
      let changed :=
        match alookup s.dvFromNeighbors srcAddr with
        | none => true
        | some stored => !dictEqb stored content
      if changed then
        let s := { s with dvFromNeighbors := dictInsert s.dvFromNeighbors srcAddr content }
        let p := updateForwardingTable s.addr s.neighbors s.dvFromNeighbors
        let s := { s with dv := p.1, forwardingTable := p.2 }
        (s, dvSendAll s)
      else (s, [])

/-- The four events the environment can deliver to a DV router. -/
inductive DVEvent where
  | newLink (port : Nat) (endpoint : String) (cost : Nat)
  | removeLink (port : Nat)
  | tick (timeMs : Nat)
  | packet (port : Nat) (pkt : DVPacket)
  deriving DecidableEq, Repr

/-- One event-handler invocation of a DV router. -/
def dvStep (s : DVState) (e : DVEvent) : DVState × List (Nat × DVPacket) :=
  match e with
  | DVEvent.newLink port endpoint cost => dvHandleNewLink s port endpoint cost
  | DVEvent.removeLink port => dvHandleRemoveLink s port
  | DVEvent.tick timeMs => dvHandleTime s timeMs
  | DVEvent.packet _ pkt => dvHandlePacket s pkt

/-- States of a DV router reachable from construction by any event sequence. -/
inductive DVReachable (addr : String) (heartbeatTime : Nat) : DVState → Prop where
  | init : DVReachable addr heartbeatTime (dvInit addr heartbeatTime)
  | step {s : DVState} (e : DVEvent) :
      DVReachable addr heartbeatTime s →
      DVReachable addr heartbeatTime (dvStep s e).1

/-! ## Characterisation of `update_forwarding_table` (C1, C3, C9) -/

/-- One route candidate considered by the recomputation:
`(destination, total cost, outgoing port)`. -/
abbrev RouteCand := String × Nat × Nat

/-- Folding `relax` over a list of candidates. -/
def relaxFold (cs : List RouteCand) (st : Dict String Nat × Dict String Nat) :
    Dict String Nat × Dict String Nat :=
  cs.foldl (fun st c => relax st c.1 c.2.1 c.2.2) st

/-- The candidates contributed by the stored neighbor vectors, in iteration
order: a vector from `nbr` contributes only if some current neighbor entry has
address `nbr` (the first such entry supplies port and cost), and its
destinations equal to `self` are skipped. -/
def viaCands (addr : String) (neighbors : Dict Nat (String × Nat))
    (dvFromNeighbors : Dict String (Dict String Nat)) : List RouteCand :=
  dvFromNeighbors.foldr
    (fun nv acc =>
      (match neighbors.find? (fun e => e.2.1 = nv.1) with
       | none => []
       | some (outPort, _, costToNbr) =>
           (nv.2.filter (fun dc => dc.1 ≠ addr)).map
             (fun dc => (dc.1, costToNbr + dc.2, outPort))) ++ acc)
    []

/-- Every route candidate the recomputation considers, in the order the two
loops consider them: direct links first, then routes through stored vectors. -/
def candList (addr : String) (neighbors : Dict Nat (String × Nat))
    (dvFromNeighbors : Dict String (Dict String Nat)) : List RouteCand :=
  neighbors.map (fun pnc => (pnc.2.1, pnc.2.2, pnc.1)) ++
    viaCands addr neighbors dvFromNeighbors

/-- The `(cost, port)` candidates of a fixed destination. -/
def candsAt (cs : List RouteCand) (d : String) : List (Nat × Nat) :=
  cs.filterMap (fun c => if c.1 = d then some c.2 else none)

/-- The `(cost, port)` routes to `d` that recomputation chooses between. -/
def routeCands (addr : String) (neighbors : Dict Nat (String × Nat))
    (dvFromNeighbors : Dict String (Dict String Nat)) (d : String) :
    List (Nat × Nat) :=
  candsAt (candList addr neighbors dvFromNeighbors) d

theorem relaxFold_append (a b : List RouteCand) (st : Dict String Nat × Dict String Nat) :
    relaxFold (a ++ b) st = relaxFold b (relaxFold a st) := by
  simp [relaxFold, List.foldl_append]

theorem relaxFold_cons (x : RouteCand) (t : List RouteCand)
    (st : Dict String Nat × Dict String Nat) :
    relaxFold (x :: t) st = relaxFold t (relax st x.1 x.2.1 x.2.2) := rfl

/-- The inner loop over one stored vector, with its skip of `self`, equals the
fold of `relax` over the corresponding mapped, filtered candidate list. -/
theorem innerLoop_eq_relaxFold (addr : String) (costToNbr outPort : Nat) :
    ∀ (v : Dict String Nat) (st : Dict String Nat × Dict String Nat),
      v.foldl
        (fun st2 dc =>
          if dc.1 = addr then st2
          else relax st2 dc.1 (costToNbr + dc.2) outPort) st =
      relaxFold
        ((v.filter (fun dc => dc.1 ≠ addr)).map
          (fun dc => (dc.1, costToNbr + dc.2, outPort))) st := by
  intro v
  induction v with
  | nil => intro st; rfl
  | cons dc t ih =>
    intro st
    by_cases h : dc.1 = addr
    · simp [List.foldl_cons, h, List.filter_cons, ih]
    · simp [List.foldl_cons, h, List.filter_cons, relaxFold_cons, ih]

/-- Phase two of the recomputation equals the fold of `relax` over `viaCands`. -/
theorem phase2_eq_relaxFold (addr : String) (neighbors : Dict Nat (String × Nat)) :
    ∀ (dvFromNeighbors : Dict String (Dict String Nat))
      (st : Dict String Nat × Dict String Nat),
      dvFromNeighbors.foldl
        (fun st nv =>
          match neighbors.find? (fun e => e.2.1 = nv.1) with
          | none => st
          | some (outPort, _, costToNbr) =>
              nv.2.foldl
                (fun st2 dc =>
                  if dc.1 = addr then st2
                  else relax st2 dc.1 (costToNbr + dc.2) outPort) st) st =
      relaxFold (viaCands addr neighbors dvFromNeighbors) st := by
  intro dvfn
  induction dvfn with
  | nil => intro st; rfl
  | cons nv t ih =>
    intro st
    have hbody :
        (match neighbors.find? (fun e => e.2.1 = nv.1) with
         | none => st
         | some (outPort, _, costToNbr) =>
             nv.2.foldl
               (fun st2 dc =>
                 if dc.1 = addr then st2
                 else relax st2 dc.1 (costToNbr + dc.2) outPort) st) =
        relaxFold
          (match neighbors.find? (fun e => e.2.1 = nv.1) with
           | none => []
           | some (outPort, _, costToNbr) =>
               (nv.2.filter (fun dc => dc.1 ≠ addr)).map
                 (fun dc => (dc.1, costToNbr + dc.2, outPort))) st := by
      cases hfind : neighbors.find? (fun e => e.2.1 = nv.1) with
      | none => rfl
      | some e =>
          obtain ⟨outPort, a, costToNbr⟩ := e
          exact innerLoop_eq_relaxFold addr costToNbr outPort nv.2 st
    have hvia : viaCands addr neighbors (nv :: t) =
        (match neighbors.find? (fun e => e.2.1 = nv.1) with
         | none => []
         | some (outPort, _, costToNbr) =>
             (nv.2.filter (fun dc => dc.1 ≠ addr)).map
               (fun dc => (dc.1, costToNbr + dc.2, outPort))) ++
          viaCands addr neighbors t := rfl
    rw [hvia, relaxFold_append, ← hbody]
    simp only [List.foldl_cons]
    exact ih _

/-- `update_forwarding_table` is exactly the fold of `relax` over the candidate
list, started from `({self: 0}, {})`. -/
theorem updateForwardingTable_eq_relaxFold (addr : String)
    (neighbors : Dict Nat (String × Nat))
    (dvFromNeighbors : Dict String (Dict String Nat)) :
    updateForwardingTable addr neighbors dvFromNeighbors =
      relaxFold (candList addr neighbors dvFromNeighbors) ([(addr, 0)], []) := by
  unfold updateForwardingTable candList
  rw [relaxFold_append]
  rw [← phase2_eq_relaxFold addr neighbors dvFromNeighbors]
  have h1 : neighbors.foldl (fun st pnc => relax st pnc.2.1 pnc.2.2 pnc.1)
      (([(addr, 0)], []) : Dict String Nat × Dict String Nat) =
      relaxFold (neighbors.map (fun pnc => (pnc.2.1, pnc.2.2, pnc.1)))
        ([(addr, 0)], []) := by
    simp [relaxFold, List.foldl_map]
  rw [← h1]

/-- Invariant that the fold of `relax` maintains: the self entry is pinned at
cost `0` with no forwarding entry, and every other destination either has no
candidate so far and is absent, or holds the minimum cost over the candidates
so far, with a forwarding port realizing it. -/
def RelaxInv (addr : String) (done : List RouteCand)
    (st : Dict String Nat × Dict String Nat) : Prop :=
  alookup st.1 addr = some 0 ∧ alookup st.2 addr = none ∧
  ∀ d, d ≠ addr →
    (alookup st.1 d = none ∧ alookup st.2 d = none ∧ candsAt done d = []) ∨
    (∃ c p, alookup st.1 d = some c ∧ alookup st.2 d = some p ∧
      (c, p) ∈ candsAt done d ∧ ∀ cp ∈ candsAt done d, c ≤ cp.1)

theorem candsAt_append (a b : List RouteCand) (d : String) :
    candsAt (a ++ b) d = candsAt a d ++ candsAt b d := by
  simp [candsAt, List.filterMap_append]

theorem candsAt_single_self (d₀ : String) (c₀ p₀ : Nat) :
    candsAt [(d₀, c₀, p₀)] d₀ = [(c₀, p₀)] := by
  simp [candsAt]

theorem candsAt_single_ne (d₀ d : String) (c₀ p₀ : Nat) (h : d₀ ≠ d) :
    candsAt [(d₀, c₀, p₀)] d = [] := by
  simp [candsAt, h]

theorem relaxInv_step (addr : String) (done : List RouteCand)
    (st : Dict String Nat × Dict String Nat) (x : RouteCand)
    (h : RelaxInv addr done st) :
    RelaxInv addr (done ++ [x]) (relax st x.1 x.2.1 x.2.2) := by
  obtain ⟨hself, hftself, hrest⟩ := h
  obtain ⟨d₀, c₀, p₀⟩ := x
  by_cases hd₀ : d₀ = addr
  · -- relaxing at the self address never improves on cost 0
    subst hd₀
    have hst : relax st d₀ c₀ p₀ = st := by
      simp [relax, hself]
    rw [hst]
    refine ⟨hself, hftself, ?_⟩
    intro d hd
    have hcands : candsAt (done ++ [(d₀, c₀, p₀)]) d = candsAt done d := by
      rw [candsAt_append, candsAt_single_ne _ _ _ _ (Ne.symm hd)]
      simp
    rw [hcands]
    exact hrest d hd
  · constructor
    · -- self cost entry untouched
      unfold relax
      cases halo : alookup st.1 d₀ with
      | none =>
          simpa [halo, alookup_dictInsert_ne _ _ _ _ (Ne.symm hd₀)] using hself
      | some old =>
          by_cases hc : c₀ < old <;>
            simp [halo, hc, alookup_dictInsert_ne _ _ _ _ (Ne.symm hd₀), hself]
    constructor
    · -- self forwarding entry untouched
      unfold relax
      cases halo : alookup st.1 d₀ with
      | none =>
          simpa [halo, alookup_dictInsert_ne _ _ _ _ (Ne.symm hd₀)] using hftself
      | some old =>
          by_cases hc : c₀ < old <;>
            simp [halo, hc, alookup_dictInsert_ne _ _ _ _ (Ne.symm hd₀), hftself]
    intro d hd
    by_cases hdd : d = d₀
    · subst hdd
      have hcands : candsAt (done ++ [(d, c₀, p₀)]) d =
          candsAt done d ++ [(c₀, p₀)] := by
        rw [candsAt_append, candsAt_single_self]
      rw [hcands]
      rcases hrest d hd with ⟨hnone, hftnone, hempty⟩ | ⟨c, p, hc, hp, hmem, hmin⟩
      · -- no candidate yet: the new one is installed and is the minimum
        right
        refine ⟨c₀, p₀, ?_, ?_, ?_, ?_⟩
        · simp [relax, hnone, alookup_dictInsert_self]
        · simp [relax, hnone, alookup_dictInsert_self]
        · rw [hempty]; simp
        · rw [hempty]; intro cp hcp; simp at hcp; simp [hcp]
      · right
        by_cases hlt : c₀ < c
        · -- strict improvement: both entries are overwritten
          refine ⟨c₀, p₀, ?_, ?_, ?_, ?_⟩
          · simp [relax, hc, hlt, alookup_dictInsert_self]
          · simp [relax, hc, hlt, alookup_dictInsert_self]
          · simp
          · intro cp hcp
            rcases List.mem_append.mp hcp with hcp | hcp
            · exact le_of_lt (lt_of_lt_of_le hlt (hmin cp hcp))
            · simp at hcp; simp [hcp]
        · -- no improvement: state unchanged, the old minimum still wins
          refine ⟨c, p, ?_, ?_, ?_, ?_⟩
          · simp [relax, hc, hlt]
          · simp [relax, hc, hlt, hp]
          · exact List.mem_append.mpr (Or.inl hmem)
          · intro cp hcp
            rcases List.mem_append.mp hcp with hcp | hcp
            · exact hmin cp hcp
            · simp at hcp; simp [hcp]; omega
    · -- a different destination: nothing changes at `d`
      have hcands : candsAt (done ++ [(d₀, c₀, p₀)]) d = candsAt done d := by
        rw [candsAt_append, candsAt_single_ne _ _ _ _ (fun hh => hdd hh.symm)]
        simp
      rw [hcands]
      have hlook1 : alookup (relax st d₀ c₀ p₀).1 d = alookup st.1 d := by
        unfold relax
        cases halo : alookup st.1 d₀ with
        | none => simp [alookup_dictInsert_ne _ _ _ _ hdd]
        | some old =>
            by_cases hclt : c₀ < old <;>
              simp [hclt, alookup_dictInsert_ne _ _ _ _ hdd]
      have hlook2 : alookup (relax st d₀ c₀ p₀).2 d = alookup st.2 d := by
        unfold relax
        cases halo : alookup st.1 d₀ with
        | none => simp [alookup_dictInsert_ne _ _ _ _ hdd]
        | some old =>
            by_cases hclt : c₀ < old <;>
              simp [hclt, alookup_dictInsert_ne _ _ _ _ hdd]
      rw [hlook1, hlook2]
      exact hrest d hd

theorem relaxFold_inv (addr : String) :
    ∀ (cs done : List RouteCand) (st : Dict String Nat × Dict String Nat),
      RelaxInv addr done st → RelaxInv addr (done ++ cs) (relaxFold cs st) := by
  intro cs
  induction cs with
  | nil => intro done st h; simpa [relaxFold] using h
  | cons x t ih =>
    intro done st h
    rw [relaxFold_cons]
    have := ih (done ++ [x]) _ (relaxInv_step addr done st x h)
    simpa [List.append_assoc] using this

/-- The recomputation satisfies the relaxation invariant with respect to the
full candidate list. -/
theorem updateForwardingTable_spec (addr : String)
    (neighbors : Dict Nat (String × Nat))
    (dvFromNeighbors : Dict String (Dict String Nat)) :
    RelaxInv addr (candList addr neighbors dvFromNeighbors)
      (updateForwardingTable addr neighbors dvFromNeighbors) := by
  rw [updateForwardingTable_eq_relaxFold]
  have hbase : RelaxInv addr [] (([(addr, 0)], []) : Dict String Nat × Dict String Nat) := by
    refine ⟨by simp [alookup], rfl, ?_⟩
    intro d hd
    left
    exact ⟨by simp [alookup, Ne.symm hd], rfl, rfl⟩
  simpa using relaxFold_inv addr (candList addr neighbors dvFromNeighbors) [] _ hbase

/-- C1: recomputation pins `dv[self] = 0`; every other destination present in
the new vector carries the minimum cost over all candidate routes (direct link
costs to it, and `cost_to_nbr + stored_vector[d]` through each stored vector
of a live neighbor), the forwarding entry is a port realizing that minimum,
and a destination with no candidate route is absent from both tables. -/
theorem dv_update_computes_minimum (addr : String)
    (neighbors : Dict Nat (String × Nat))
    (dvFromNeighbors : Dict String (Dict String Nat)) :
    alookup (updateForwardingTable addr neighbors dvFromNeighbors).1 addr = some 0 ∧
    ∀ d, d ≠ addr →
      (alookup (updateForwardingTable addr neighbors dvFromNeighbors).1 d = none ∧
       alookup (updateForwardingTable addr neighbors dvFromNeighbors).2 d = none ∧
       routeCands addr neighbors dvFromNeighbors d = []) ∨
      (∃ c p,
        alookup (updateForwardingTable addr neighbors dvFromNeighbors).1 d = some c ∧
        alookup (updateForwardingTable addr neighbors dvFromNeighbors).2 d = some p ∧
        (c, p) ∈ routeCands addr neighbors dvFromNeighbors d ∧
        ∀ cp ∈ routeCands addr neighbors dvFromNeighbors d, c ≤ cp.1) := by
  have h := updateForwardingTable_spec addr neighbors dvFromNeighbors
  exact ⟨h.1, h.2.2⟩

theorem dv_update_computes_minimum_witness :
    (("B" : String) ≠ "A") ∧
    ((alookup (updateForwardingTable "A" [(1, ("B", 10)), (2, ("C", 5))]
        [("C", [("B", 1)])]).1 "B" = none ∧
      alookup (updateForwardingTable "A" [(1, ("B", 10)), (2, ("C", 5))]
        [("C", [("B", 1)])]).2 "B" = none ∧
      routeCands "A" [(1, ("B", 10)), (2, ("C", 5))] [("C", [("B", 1)])] "B" = []) ∨
     (∃ c p,
        alookup (updateForwardingTable "A" [(1, ("B", 10)), (2, ("C", 5))]
          [("C", [("B", 1)])]).1 "B" = some c ∧
        alookup (updateForwardingTable "A" [(1, ("B", 10)), (2, ("C", 5))]
          [("C", [("B", 1)])]).2 "B" = some p ∧
        (c, p) ∈ routeCands "A" [(1, ("B", 10)), (2, ("C", 5))] [("C", [("B", 1)])] "B" ∧
        ∀ cp ∈ routeCands "A" [(1, ("B", 10)), (2, ("C", 5))] [("C", [("B", 1)])] "B",
          c ≤ cp.1)) :=
  ⟨by decide,
   (dv_update_computes_minimum "A" [(1, ("B", 10)), (2, ("C", 5))]
      [("C", [("B", 1)])]).2 "B" (by decide)⟩

/-- C9: a stored vector whose key is the address of no current neighbor is
skipped by the recomputation, so removing it changes neither the new distance
vector nor the new forwarding table. -/
theorem dv_update_ignores_nonneighbor_vector (addr : String)
    (neighbors : Dict Nat (String × Nat))
    (pre post : Dict String (Dict String Nat)) (e : String) (v : Dict String Nat)
    (h : ∀ ent ∈ neighbors, ent.2.1 ≠ e) :
    updateForwardingTable addr neighbors (pre ++ (e, v) :: post) =
      updateForwardingTable addr neighbors (pre ++ post) := by
  have hfind : neighbors.find? (fun ent => ent.2.1 = e) = none :=
    List.find?_eq_none.mpr (fun x hx => by simpa using h x hx)
  unfold updateForwardingTable
  rw [List.foldl_append, List.foldl_append, List.foldl_cons]
  simp [hfind]

theorem dv_update_ignores_nonneighbor_vector_witness :
    updateForwardingTable "A" [(1, ("B", 3))] [("Z", [("Q", 1)]), ("B", [("C", 2)])] =
      updateForwardingTable "A" [(1, ("B", 3))] [("B", [("C", 2)])] :=
  dv_update_ignores_nonneighbor_vector "A" [(1, ("B", 3))] [] [("B", [("C", 2)])]
    "Z" [("Q", 1)] (by decide)

/-- A DV state with a stored vector for `"B"` (installed, as `handle_packet`
does, without `"B"` being a neighbor) used to refute C6. -/
def dvStateWithStoredVector : DVState :=
  { addr := "A", heartbeatTime := 100, lastTime := 0, neighbors := [],
    dv := [("A", 0)], dvFromNeighbors := [("B", [("C", 7)])],
    forwardingTable := [] }

/-- C6 counterexample: `handle_new_link` overwrites the existing stored vector
for the endpoint with the empty dict (`self.dv_from_neighbors[endpoint] = {}`),
so a previously stored vector is not left unchanged. -/
theorem dv_new_link_clears_stored_vector_cex :
    alookup dvStateWithStoredVector.dvFromNeighbors "B" = some [("C", 7)] ∧
    alookup ((dvHandleNewLink dvStateWithStoredVector 1 "B" 5).1).dvFromNeighbors "B"
      = some [] ∧
    (some ([] : Dict String Nat) ≠ some [("C", 7)]) := by decide

/-- C6 amended: `handle_new_link(port, e, cost)` unconditionally resets the
stored vector for `e` to the empty vector, whether or not one was stored. -/
theorem dv_new_link_resets_stored_vector (s : DVState) (port : Nat)
    (e : String) (cost : Nat) :
    alookup ((dvHandleNewLink s port e cost).1).dvFromNeighbors e = some [] := by
  unfold dvHandleNewLink
  dsimp only
  split <;> simp [alookup_dictInsert_self]

theorem candsAt_mem (cs : List RouteCand) (d : String) (c p : Nat)
    (h : (c, p) ∈ candsAt cs d) : (d, c, p) ∈ cs := by
  obtain ⟨a, ha, hcp⟩ := List.mem_filterMap.mp h
  obtain ⟨a1, a2⟩ := a
  by_cases hd : a1 = d
  · rw [if_pos hd] at hcp
    injection hcp with h2
    subst hd
    rw [show a2 = (c, p) from h2] at ha
    exact ha
  · rw [if_neg hd] at hcp
    cases hcp

/-- Every port mentioned by a candidate from the stored vectors is a current
key of `neighbors`. -/
theorem viaCands_port_isSome (addr : String) (neighbors : Dict Nat (String × Nat)) :
    ∀ (dvFromNeighbors : Dict String (Dict String Nat)) (x : RouteCand),
      x ∈ viaCands addr neighbors dvFromNeighbors →
      (alookup neighbors x.2.2).isSome = true := by
  intro dvfn
  induction dvfn with
  | nil => intro x hx; cases hx
  | cons nv t ih =>
    intro x hx
    have hsplit : viaCands addr neighbors (nv :: t) =
        (match neighbors.find? (fun e => e.2.1 = nv.1) with
         | none => []
         | some (outPort, _, costToNbr) =>
             (nv.2.filter (fun dc => dc.1 ≠ addr)).map
               (fun dc => (dc.1, costToNbr + dc.2, outPort))) ++
          viaCands addr neighbors t := rfl
    rw [hsplit] at hx
    rcases List.mem_append.mp hx with hh | hh
    · cases hfind : neighbors.find? (fun e => e.2.1 = nv.1) with
      | none => rw [hfind] at hh; cases hh
      | some ent =>
          obtain ⟨outPort, a, costToNbr⟩ := ent
          rw [hfind] at hh
          obtain ⟨dc, _, hdc⟩ := List.mem_map.mp hh
          have hport : x.2.2 = outPort := by rw [← hdc]
          rw [hport]
          exact isSome_alookup_of_mem (List.mem_of_find?_eq_some hfind)
    · exact ih x hh

/-- Every port mentioned by a route candidate is a current key of
`neighbors`. -/
theorem candList_port_isSome (addr : String) (neighbors : Dict Nat (String × Nat))
    (dvFromNeighbors : Dict String (Dict String Nat)) (x : RouteCand)
    (hx : x ∈ candList addr neighbors dvFromNeighbors) :
    (alookup neighbors x.2.2).isSome = true := by
  rcases List.mem_append.mp hx with hx1 | hx1
  · obtain ⟨pnc, hmem, heq⟩ := List.mem_map.mp hx1
    have hp : x.2.2 = pnc.1 := by rw [← heq]
    rw [hp]
    exact isSome_alookup_of_mem (show (pnc.1, pnc.2) ∈ neighbors by simpa using hmem)
  · exact viaCands_port_isSome addr neighbors dvFromNeighbors x hx1

/-- Every forwarding entry the recomputation produces points out of a port
that is a current key of `neighbors`. -/
theorem updateForwardingTable_ports (addr : String)
    (neighbors : Dict Nat (String × Nat))
    (dvFromNeighbors : Dict String (Dict String Nat)) :
    ∀ d p, alookup (updateForwardingTable addr neighbors dvFromNeighbors).2 d = some p →
      (alookup neighbors p).isSome = true := by
  intro d p hp
  have h := updateForwardingTable_spec addr neighbors dvFromNeighbors
  by_cases hd : d = addr
  · subst hd
    rw [h.2.1] at hp
    cases hp
  · rcases h.2.2 d hd with ⟨_, hnone, _⟩ | ⟨c, p', _, hp', hmem, _⟩
    · rw [hnone] at hp
      cases hp
    · rw [hp'] at hp
      injection hp with hpp
      subst hpp
      exact candList_port_isSome addr neighbors dvFromNeighbors _
        (candsAt_mem _ _ _ _ hmem)

/-! ## JSON wire format (`json.dumps` / `json.loads` as the LS router uses
them)

The LS router serializes `(self.addr, self.seq_num, links)` with
`json.dumps` (defaults: `ensure_ascii=True`, separators `", "` and `": "`)
and parses received contents with `json.loads`.  The model covers the
integer-valued fragment of JSON the protocol exchanges: strings (with the
full escaping `json.dumps` performs, including `\uXXXX` and surrogate
pairs), non-negative integers, arrays and objects.  Floats, `-`-signed
numbers, and lone-surrogate escapes (which Lean's `Char` cannot hold) are
outside the model: the parser rejects them. -/

/-- Python `json` value (integer-valued fragment). -/
inductive JVal where
  | str (s : String)
  | num (n : Nat)
  | arr (xs : List JVal)
  | obj (kvs : List (String × JVal))

/-- The hexadecimal digits `json.dumps` emits (lowercase). -/
def hexDigit (n : Nat) : Char :=
  if n < 10 then Char.ofNat (48 + n) else Char.ofNat (87 + n)

/-- Value of a hexadecimal digit, upper or lower case. -/
def hexVal (c : Char) : Option Nat :=
  if 48 ≤ c.toNat ∧ c.toNat ≤ 57 then some (c.toNat - 48)
  else if 97 ≤ c.toNat ∧ c.toNat ≤ 102 then some (c.toNat - 87)
  else if 65 ≤ c.toNat ∧ c.toNat ≤ 70 then some (c.toNat - 55)
  else none

/-- Four-hex-digit rendering used by `\uXXXX` escapes. -/
def toHex4 (n : Nat) : List Char :=
  [hexDigit (n / 4096 % 16), hexDigit (n / 256 % 16),
   hexDigit (n / 16 % 16), hexDigit (n % 16)]

/-- How `json.dumps` (with its default `ensure_ascii=True`) renders one
character inside a string literal: named escapes for the usual controls,
printable ASCII verbatim, `\uXXXX` otherwise, as a surrogate pair above
the BMP. -/
def encodeJChar (c : Char) : List Char :=
  if c.toNat = 34 then ['\\', '"']
  else if c.toNat = 92 then ['\\', '\\']
  else if c.toNat = 10 then ['\\', 'n']
  else if c.toNat = 13 then ['\\', 'r']
  else if c.toNat = 9 then ['\\', 't']
  else if c.toNat = 8 then ['\\', 'b']
  else if c.toNat = 12 then ['\\', 'f']
  else if 32 ≤ c.toNat ∧ c.toNat ≤ 126 then [c]
  else if c.toNat < 65536 then '\\' :: 'u' :: toHex4 c.toNat
  else
    '\\' :: 'u' :: toHex4 (55296 + (c.toNat - 65536) / 1024) ++
      ('\\' :: 'u' :: toHex4 (56320 + (c.toNat - 65536) % 1024))

def encodeJChars : List Char → List Char
  | [] => []
  | c :: t => encodeJChar c ++ encodeJChars t

/-- A JSON string literal for `s`, quotes included. -/
def jStrDumpChars (s : String) : List Char :=
  '"' :: (encodeJChars s.data ++ ['"'])

/-- Decimal rendering, with fuel bounding the digit count (`natDump` passes
`n + 1`, which always suffices). -/
def natDumpAux : Nat → Nat → List Char
  | 0, _ => []
  | fuel + 1, n =>
      if n < 10 then [Char.ofNat (48 + n)]
      else natDumpAux fuel (n / 10) ++ [Char.ofNat (48 + n % 10)]

/-- Decimal rendering of a natural number (Python `str(int)`). -/
def natDump (n : Nat) : List Char := natDumpAux (n + 1) n

/-- The `"key": value` items of an object literal, separated by `", "`. -/
def objItemsDump : Dict String Nat → List Char
  | [] => []
  | [(k, v)] => jStrDumpChars k ++ (':' :: ' ' :: natDump v)
  | (k, v) :: t =>
      jStrDumpChars k ++ (':' :: ' ' :: natDump v) ++ (',' :: ' ' :: objItemsDump t)

def objDumpChars (l : Dict String Nat) : List Char :=
  '{' :: (objItemsDump l ++ ['}'])

/-- `json.dumps((origin, seq, links))` with the default separators: the LS
wire content. -/
def lsDumps (origin : String) (seq : Nat) (links : Dict String Nat) : String :=
  ⟨'[' :: (jStrDumpChars origin ++
    (',' :: ' ' :: natDump seq ++
      (',' :: ' ' :: objDumpChars links ++ [']'])))⟩

/-- Named escape characters `json.loads` accepts after a backslash. -/
def escChar (c : Char) : Option Char :=
  if c.toNat = 34 then some '"'
  else if c.toNat = 92 then some '\\'
  else if c.toNat = 47 then some '/'
  else if c.toNat = 110 then some '\n'
  else if c.toNat = 116 then some '\t'
  else if c.toNat = 114 then some '\r'
  else if c.toNat = 98 then some (Char.ofNat 8)
  else if c.toNat = 102 then some (Char.ofNat 12)
  else none

/-- Read four hexadecimal digits. -/
def readHex4 : List Char → Option (Nat × List Char)
  | a :: b :: c :: d :: rest =>
      match hexVal a, hexVal b, hexVal c, hexVal d with
      | some ha, some hb, some hc, some hd =>
          some (ha * 4096 + hb * 256 + hc * 16 + hd, rest)
      | _, _, _, _ => none
  | _ => none

/-- Decode the body of a `\uXXXX` escape (the `\u` already consumed): a
high surrogate must be followed by a low surrogate and the pair is combined
(a lone surrogate cannot inhabit `Char` and is rejected). -/
def decodeUnicodeEscape (l : List Char) : Option (Char × List Char) :=
  match readHex4 l with
  | none => none
  | some (n, rest) =>
      if 55296 ≤ n ∧ n ≤ 56319 then
        match rest with
        | b1 :: u1 :: rest2 =>
            if b1.toNat = 92 ∧ u1.toNat = 117 then
              match readHex4 rest2 with
              | some (m, rest3) =>
                  if 56320 ≤ m ∧ m ≤ 57343 then
                    some (Char.ofNat (65536 + (n - 55296) * 1024 + (m - 56320)), rest3)
                  else none
              | none => none
            else none
        | _ => none
      else if 56320 ≤ n ∧ n ≤ 57343 then none
      else some (Char.ofNat n, rest)

/-- Decode one escape sequence (the backslash already consumed). -/
def decodeEscape : List Char → Option (Char × List Char)
  | [] => none
  | e :: rest =>
      if e.toNat = 117 then decodeUnicodeEscape rest
      else
        match escChar e with
        | some ec => some (ec, rest)
        | none => none

/-- Parse the body of a string literal (opening quote already consumed) up to
its closing quote, decoding escapes.  The fuel argument only bounds the
recursion (one unit per decoded character); callers pass the remaining
input length plus one, which no input can exhaust. -/
def parseJStringAux : Nat → List Char → Option (List Char × List Char)
  | 0, _ => none
  | _, [] => none
  | fuel + 1, c :: rest =>
    if c.toNat = 34 then some ([], rest)
    else if c.toNat = 92 then
      match decodeEscape rest with
      | some (ec, rest2) =>
          match parseJStringAux fuel rest2 with
          | some (s, r) => some (ec :: s, r)
          | none => none
      | none => none
    else if c.toNat < 32 then none
    else
      match parseJStringAux fuel rest with
      | some (s, r) => some (c :: s, r)
      | none => none

/-- Drop JSON whitespace. -/
def skipWs : List Char → List Char
  | [] => []
  | c :: t =>
      if c.toNat = 32 ∨ c.toNat = 9 ∨ c.toNat = 10 ∨ c.toNat = 13 then skipWs t
      else c :: t

/-- Decimal digit test. -/
def isDigitChar (c : Char) : Bool := 48 ≤ c.toNat ∧ c.toNat ≤ 57

/-- Accumulate a run of decimal digits. -/
def parseNatAux : List Char → Nat → Nat × List Char
  | [], acc => (acc, [])
  | c :: t, acc =>
      if isDigitChar c then parseNatAux t (acc * 10 + (c.toNat - 48)) else (acc, c :: t)

mutual

/-- Recursive-descent JSON value parser.  The fuel argument bounds the
recursion depth and item count; `jsonLoads` supplies more fuel than any
input can consume. -/
def parseJVal : Nat → List Char → Option (JVal × List Char)
  | 0, _ => none
  | fuel + 1, cs =>
    match skipWs cs with
    | [] => none
    | c :: rest =>
      if c.toNat = 34 then
        match parseJStringAux (rest.length + 1) rest with
        | some (s, r) => some (JVal.str ⟨s⟩, r)
        | none => none
      else if c.toNat = 91 then
        match skipWs rest with
        | c2 :: r2 =>
            if c2.toNat = 93 then some (JVal.arr [], r2)
            else
              match parseArrItems fuel rest with
              | some (xs, r3) => some (JVal.arr xs, r3)
              | none => none
        | [] => none
      else if c.toNat = 123 then
        match skipWs rest with
        | c2 :: r2 =>
            if c2.toNat = 125 then some (JVal.obj [], r2)
            else
              match parseObjItems fuel rest with
              | some (kvs, r3) =>
                  some (JVal.obj
                    (kvs.foldl (fun m kv => dictInsert m kv.1 kv.2) []), r3)
              | none => none
        | [] => none
      else if isDigitChar c then
        match parseNatAux (c :: rest) 0 with
        | (n, r) =>
          match r with
          | c2 :: _ =>
              if c2.toNat = 46 ∨ c2.toNat = 101 ∨ c2.toNat = 69 then none
              else some (JVal.num n, r)
          | [] => some (JVal.num n, [])
      else none

/-- One or more comma-separated array items up to the closing bracket. -/
def parseArrItems : Nat → List Char → Option (List JVal × List Char)
  | 0, _ => none
  | fuel + 1, cs =>
    match parseJVal fuel cs with
    | none => none
    | some (v, r) =>
      match skipWs r with
      | [] => none
      | c :: r2 =>
        if c.toNat = 44 then
          match parseArrItems fuel r2 with
          | some (xs, r3) => some (v :: xs, r3)
          | none => none
        else if c.toNat = 93 then some ([v], r2)
        else none

/-- One or more `"key": value` object items up to the closing brace,
returned in textual order (duplicates are merged by the caller with
`dict` semantics). -/
def parseObjItems : Nat → List Char → Option (List (String × JVal) × List Char)
  | 0, _ => none
  | fuel + 1, cs =>
    match skipWs cs with
    | [] => none
    | c :: rest =>
      if c.toNat = 34 then
        match parseJStringAux (rest.length + 1) rest with
        | none => none
        | some (k, r) =>
          match skipWs r with
          | [] => none
          | c2 :: r2 =>
            if c2.toNat = 58 then
              match parseJVal fuel r2 with
              | none => none
              | some (v, r3) =>
                match skipWs r3 with
                | [] => none
                | c3 :: r4 =>
                  if c3.toNat = 44 then
                    match parseObjItems fuel r4 with
                    | some (kvs, r5) => some ((⟨k⟩, v) :: kvs, r5)
                    | none => none
                  else if c3.toNat = 125 then some ([(⟨k⟩, v)], r4)
                  else none
            else none
      else none

end

/-- `json.loads`, for the modelled fragment: parse one value and require
only whitespace after it. -/
def jsonLoads (s : String) : Option JVal :=
  match parseJVal (s.length + 1) s.data with
  | some (v, r) => if skipWs r = [] then some v else none
  | none => none

/-- Extract a `links` map all of whose values are integers. -/
def asLinks : List (String × JVal) → Option (Dict String Nat)
  | [] => some []
  | (k, JVal.num n) :: t =>
      match asLinks t with
      | some l => some ((k, n) :: l)
      | none => none
  | _ => none

/-! ### Round-trip: `json.loads` recovers what `json.dumps` wrote -/

theorem char_toNat_ofNat_valid (n : Nat) (h : n.isValidChar) :
    (Char.ofNat n).toNat = n := by
  unfold Char.ofNat
  rw [dif_pos h]
  unfold Char.ofNatAux
  simp [Char.toNat, UInt32.toNat, BitVec.toNat_ofNatLt]

/-- The code points `Char` can hold exclude the surrogate range. -/
theorem char_toNat_valid (c : Char) :
    c.toNat < 55296 ∨ (57343 < c.toNat ∧ c.toNat < 1114112) := c.valid

theorem hexVal_hexDigit (k : Nat) (h : k < 16) : hexVal (hexDigit k) = some k := by
  unfold hexDigit hexVal
  by_cases h10 : k < 10
  · rw [if_pos h10, char_toNat_ofNat_valid _ (Or.inl (by omega))]
    rw [if_pos (by omega)]
    congr 1
    omega
  · rw [if_neg h10, char_toNat_ofNat_valid _ (Or.inl (by omega))]
    rw [if_neg (by omega), if_pos (by omega)]
    congr 1
    omega

theorem readHex4_toHex4 (v : Nat) (hv : v < 65536) (tl : List Char) :
    readHex4 (toHex4 v ++ tl) = some (v, tl) := by
  show readHex4 (hexDigit (v / 4096 % 16) :: hexDigit (v / 256 % 16) ::
      hexDigit (v / 16 % 16) :: hexDigit (v % 16) :: tl) = some (v, tl)
  have hdef : readHex4 (hexDigit (v / 4096 % 16) :: hexDigit (v / 256 % 16) ::
      hexDigit (v / 16 % 16) :: hexDigit (v % 16) :: tl) =
      match hexVal (hexDigit (v / 4096 % 16)), hexVal (hexDigit (v / 256 % 16)),
            hexVal (hexDigit (v / 16 % 16)), hexVal (hexDigit (v % 16)) with
      | some ha, some hb, some hc, some hd =>
          some (ha * 4096 + hb * 256 + hc * 16 + hd, tl)
      | _, _, _, _ => none := rfl
  rw [hdef, hexVal_hexDigit _ (by omega), hexVal_hexDigit _ (by omega),
    hexVal_hexDigit _ (by omega), hexVal_hexDigit _ (by omega)]
  dsimp only
  rw [show v / 4096 % 16 * 4096 + v / 256 % 16 * 256 + v / 16 % 16 * 16 + v % 16 = v
    from by omega]

theorem decodeUnicodeEscape_eq (l : List Char) :
    decodeUnicodeEscape l =
      match readHex4 l with
      | none => none
      | some (n, rest) =>
          if 55296 ≤ n ∧ n ≤ 56319 then
            match rest with
            | b1 :: u1 :: rest2 =>
                if b1.toNat = 92 ∧ u1.toNat = 117 then
                  match readHex4 rest2 with
                  | some (m, rest3) =>
                      if 56320 ≤ m ∧ m ≤ 57343 then
                        some (Char.ofNat (65536 + (n - 55296) * 1024 + (m - 56320)), rest3)
                      else none
                  | none => none
                else none
            | _ => none
          else if 56320 ≤ n ∧ n ≤ 57343 then none
          else some (Char.ofNat n, rest) := rfl

theorem decodeEscape_u (rest : List Char) :
    decodeEscape ('u' :: rest) = decodeUnicodeEscape rest := rfl

/-- Decoding a 4-hex-digit escape of a BMP, non-surrogate code point. -/
theorem decodeEscape_bmp (v : Nat) (hv : v < 65536)
    (hns : ¬ (55296 ≤ v ∧ v ≤ 57343)) (tl : List Char) :
    decodeEscape ('u' :: (toHex4 v ++ tl)) = some (Char.ofNat v, tl) := by
  rw [decodeEscape_u, decodeUnicodeEscape_eq]
  rw [readHex4_toHex4 v hv]
  dsimp only
  rw [if_neg (by omega), if_neg (by omega)]

/-- Decoding a surrogate-pair escape of a code point above the BMP. -/
theorem decodeEscape_pair (v : Nat) (h1 : 65536 ≤ v) (h2 : v < 1114112)
    (tl : List Char) :
    decodeEscape ('u' :: (toHex4 (55296 + (v - 65536) / 1024) ++
      ('\\' :: 'u' :: (toHex4 (56320 + (v - 65536) % 1024) ++ tl)))) =
      some (Char.ofNat v, tl) := by
  have hdiv : (v - 65536) / 1024 < 1024 := by omega
  have hmod : (v - 65536) % 1024 < 1024 := Nat.mod_lt _ (by omega)
  rw [decodeEscape_u, decodeUnicodeEscape_eq]
  rw [readHex4_toHex4 _ (by omega)]
  dsimp only
  rw [if_pos (by omega)]
  have hbu : ('\\').toNat = 92 ∧ ('u').toNat = 117 := ⟨rfl, rfl⟩
  rw [if_pos hbu]
  rw [readHex4_toHex4 _ (by omega)]
  dsimp only
  rw [if_pos (by omega)]
  rw [show 65536 + (55296 + (v - 65536) / 1024 - 55296) * 1024 +
      (56320 + (v - 65536) % 1024 - 56320) = v from by omega]

theorem parseJStringAux_quote (f : Nat) (rest : List Char) :
    parseJStringAux (f + 1) ('"' :: rest) = some ([], rest) := rfl

theorem parseJStringAux_backslash (f : Nat) (l l2 s r : List Char) (ec : Char)
    (hdec : decodeEscape l = some (ec, l2))
    (hs : parseJStringAux f l2 = some (s, r)) :
    parseJStringAux (f + 1) ('\\' :: l) = some (ec :: s, r) := by
  have hdef : parseJStringAux (f + 1) ('\\' :: l) =
      match decodeEscape l with
      | some (ec, rest2) =>
          match parseJStringAux f rest2 with
          | some (s, r) => some (ec :: s, r)
          | none => none
      | none => none := rfl
  rw [hdef, hdec]
  dsimp only
  rw [hs]

theorem parseJStringAux_plain (f : Nat) (c : Char) (tl s r : List Char)
    (h34 : ¬ c.toNat = 34) (h92 : ¬ c.toNat = 92) (h32 : ¬ c.toNat < 32)
    (ih : parseJStringAux f tl = some (s, r)) :
    parseJStringAux (f + 1) (c :: tl) = some (c :: s, r) := by
  have hdef : parseJStringAux (f + 1) (c :: tl) =
      if c.toNat = 34 then some ([], tl)
      else if c.toNat = 92 then
        match decodeEscape tl with
        | some (ec, rest2) =>
            match parseJStringAux f rest2 with
            | some (s, r) => some (ec :: s, r)
            | none => none
        | none => none
      else if c.toNat < 32 then none
      else
        match parseJStringAux f tl with
        | some (s, r) => some (c :: s, r)
        | none => none := rfl
  rw [hdef, if_neg h34, if_neg h92, if_neg h32, ih]

/-- One encoded character parses back to itself. -/
theorem parseJStringAux_encode_cons (c : Char) (f : Nat) (tl s r : List Char)
    (ih : parseJStringAux f tl = some (s, r)) :
    parseJStringAux (f + 1) (encodeJChar c ++ tl) = some (c :: s, r) := by
  have hval := char_toNat_valid c
  unfold encodeJChar
  by_cases h1 : c.toNat = 34
  · have hc : c = '"' := by rw [← Char.ofNat_toNat c, h1]
    rw [if_pos h1, hc]
    exact parseJStringAux_backslash f _ _ _ _ _ rfl ih
  rw [if_neg h1]
  by_cases h2 : c.toNat = 92
  · have hc : c = '\\' := by rw [← Char.ofNat_toNat c, h2]
    rw [if_pos h2, hc]
    exact parseJStringAux_backslash f _ _ _ _ _ rfl ih
  rw [if_neg h2]
  by_cases h3 : c.toNat = 10
  · have hc : c = '\n' := by rw [← Char.ofNat_toNat c, h3]
    rw [if_pos h3, hc]
    exact parseJStringAux_backslash f _ _ _ _ _ rfl ih
  rw [if_neg h3]
  by_cases h4 : c.toNat = 13
  · have hc : c = '\r' := by rw [← Char.ofNat_toNat c, h4]
    rw [if_pos h4, hc]
    exact parseJStringAux_backslash f _ _ _ _ _ rfl ih
  rw [if_neg h4]
  by_cases h5 : c.toNat = 9
  · have hc : c = '\t' := by rw [← Char.ofNat_toNat c, h5]
    rw [if_pos h5, hc]
    exact parseJStringAux_backslash f _ _ _ _ _ rfl ih
  rw [if_neg h5]
  by_cases h6 : c.toNat = 8
  · have hc : c = Char.ofNat 8 := by rw [← Char.ofNat_toNat c, h6]
    rw [if_pos h6, hc]
    exact parseJStringAux_backslash f _ _ _ _ _ rfl ih
  rw [if_neg h6]
  by_cases h7 : c.toNat = 12
  · have hc : c = Char.ofNat 12 := by rw [← Char.ofNat_toNat c, h7]
    rw [if_pos h7, hc]
    exact parseJStringAux_backslash f _ _ _ _ _ rfl ih
  rw [if_neg h7]
  by_cases h8 : 32 ≤ c.toNat ∧ c.toNat ≤ 126
  · rw [if_pos h8]
    exact parseJStringAux_plain f c tl s r h1 h2 (by omega) ih
  rw [if_neg h8]
  by_cases h9 : c.toNat < 65536
  · rw [if_pos h9]
    show parseJStringAux (f + 1) ('\\' :: ('u' :: (toHex4 c.toNat ++ tl))) = _
    have hstep := parseJStringAux_backslash f _ _ _ _ _
      (decodeEscape_bmp c.toNat h9 (by omega) tl) ih
    rw [hstep, Char.ofNat_toNat]
  · rw [if_neg h9]
    show parseJStringAux (f + 1)
      ('\\' :: ('u' :: (toHex4 (55296 + (c.toNat - 65536) / 1024) ++
        ('\\' :: 'u' :: (toHex4 (56320 + (c.toNat - 65536) % 1024) ++ tl))))) = _
    have hstep := parseJStringAux_backslash f _ _ _ _ _
      (decodeEscape_pair c.toNat (by omega) (by omega) tl) ih
    rw [hstep, Char.ofNat_toNat]

/-- An encoded string body followed by the closing quote parses back to the
original characters. -/
theorem parseJStringAux_encode (cs : List Char) :
    ∀ (g : Nat) (rest : List Char),
      parseJStringAux (cs.length + g + 1) (encodeJChars cs ++ ('"' :: rest)) =
        some (cs, rest) := by
  induction cs with
  | nil => intro g rest; exact parseJStringAux_quote g rest
  | cons c t ih =>
    intro g rest
    have hassoc : encodeJChars (c :: t) ++ ('"' :: rest) =
        encodeJChar c ++ (encodeJChars t ++ ('"' :: rest)) := by
      show (encodeJChar c ++ encodeJChars t) ++ ('"' :: rest) = _
      rw [List.append_assoc]
    rw [hassoc]
    show parseJStringAux ((c :: t).length + g + 1) _ = _
    have hlen : (c :: t).length + g + 1 = (t.length + g + 1) + 1 := by
      simp only [List.length_cons]
      omega
    rw [hlen]
    exact parseJStringAux_encode_cons c (t.length + g + 1) _ _ _ (ih g rest)

theorem skipWs_notWs (c : Char) (t : List Char)
    (h : ¬ (c.toNat = 32 ∨ c.toNat = 9 ∨ c.toNat = 10 ∨ c.toNat = 13)) :
    skipWs (c :: t) = c :: t := by
  simp only [skipWs]
  rw [if_neg h]

theorem skipWs_space (t : List Char) : skipWs (' ' :: t) = skipWs t := by
  simp only [skipWs]
  rw [if_pos (show (' ').toNat = 32 ∨ (' ').toNat = 9 ∨ (' ').toNat = 10 ∨
    (' ').toNat = 13 from Or.inl rfl)]

theorem isDigitChar_bounds (c : Char) (h : isDigitChar c = true) :
    48 ≤ c.toNat ∧ c.toNat ≤ 57 := by
  simpa [isDigitChar] using h

theorem digitChar_isDigit (d : Nat) (h : d < 10) :
    isDigitChar (Char.ofNat (48 + d)) = true := by
  have hv : (48 + d).isValidChar := Or.inl (by omega)
  simp [isDigitChar, char_toNat_ofNat_valid _ hv]
  omega

/-- The digit-run accumulator consumes exactly a prefix of digits. -/
theorem parseNatAux_digits (ds : List Char) :
    (∀ c ∈ ds, isDigitChar c = true) →
    ∀ (acc : Nat) (rest : List Char),
      parseNatAux (ds ++ rest) acc =
        parseNatAux rest (ds.foldl (fun a c => a * 10 + (c.toNat - 48)) acc) := by
  induction ds with
  | nil => intro _ acc rest; rfl
  | cons c t ih =>
    intro hds acc rest
    have hc : isDigitChar c = true := hds c (List.mem_cons_self c t)
    show parseNatAux (c :: (t ++ rest)) acc = _
    simp only [parseNatAux]
    rw [if_pos hc]
    exact ih (fun x hx => hds x (List.mem_cons_of_mem c hx)) _ rest

theorem natDumpAux_irrel (n : Nat) :
    ∀ f g, n < f → n < g → natDumpAux f n = natDumpAux g n := by
  induction n using Nat.strong_induction_on with
  | _ n ih =>
    intro f g hf hg
    obtain ⟨f', rfl⟩ : ∃ f', f = f' + 1 := ⟨f - 1, by omega⟩
    obtain ⟨g', rfl⟩ : ∃ g', g = g' + 1 := ⟨g - 1, by omega⟩
    simp only [natDumpAux]
    by_cases h10 : n < 10
    · rw [if_pos h10, if_pos h10]
    · rw [if_neg h10, if_neg h10]
      rw [ih (n / 10) (by omega) f' g' (by omega) (by omega)]

theorem natDumpAux_digits :
    ∀ f n, ∀ c ∈ natDumpAux f n, isDigitChar c = true := by
  intro f
  induction f with
  | zero => intro n c hc; cases hc
  | succ f ih =>
    intro n c hc
    simp only [natDumpAux] at hc
    by_cases h10 : n < 10
    · rw [if_pos h10] at hc
      simp at hc
      subst hc
      exact digitChar_isDigit n h10
    · rw [if_neg h10] at hc
      rcases List.mem_append.mp hc with hc | hc
      · exact ih (n / 10) c hc
      · simp at hc
        subst hc
        exact digitChar_isDigit (n % 10) (Nat.mod_lt _ (by omega))

theorem natDump_digits (n : Nat) : ∀ c ∈ natDump n, isDigitChar c = true :=
  natDumpAux_digits (n + 1) n

theorem natDump_ne_nil (n : Nat) : natDump n ≠ [] := by
  unfold natDump natDumpAux
  by_cases h10 : n < 10
  · rw [if_pos h10]; simp
  · rw [if_neg h10]; simp

theorem foldl_natDump (n : Nat) :
    (natDump n).foldl (fun a c => a * 10 + (c.toNat - 48)) 0 = n := by
  induction n using Nat.strong_induction_on with
  | _ n ih =>
    unfold natDump natDumpAux
    by_cases h10 : n < 10
    · rw [if_pos h10]
      simp only [List.foldl_cons, List.foldl_nil]
      rw [char_toNat_ofNat_valid _ (Or.inl (by omega))]
      omega
    · rw [if_neg h10]
      rw [List.foldl_append]
      have hx : natDumpAux n (n / 10) = natDump (n / 10) :=
        natDumpAux_irrel (n / 10) n (n / 10 + 1) (by omega) (by omega)
      rw [hx, ih (n / 10) (by omega)]
      simp only [List.foldl_cons, List.foldl_nil]
      rw [char_toNat_ofNat_valid _ (Or.inl (by omega))]
      omega

/-- The continuations that legitimately follow a serialized number. -/
def headSep : List Char → Prop
  | [] => True
  | c :: _ =>
      isDigitChar c = false ∧ ¬ c.toNat = 46 ∧ ¬ c.toNat = 101 ∧ ¬ c.toNat = 69

theorem parseJVal_eq (fuel : Nat) (cs : List Char) :
    parseJVal (fuel + 1) cs =
      match skipWs cs with
      | [] => none
      | c :: rest =>
        if c.toNat = 34 then
          match parseJStringAux (rest.length + 1) rest with
          | some (s, r) => some (JVal.str ⟨s⟩, r)
          | none => none
        else if c.toNat = 91 then
          match skipWs rest with
          | c2 :: r2 =>
              if c2.toNat = 93 then some (JVal.arr [], r2)
              else
                match parseArrItems fuel rest with
                | some (xs, r3) => some (JVal.arr xs, r3)
                | none => none
          | [] => none
        else if c.toNat = 123 then
          match skipWs rest with
          | c2 :: r2 =>
              if c2.toNat = 125 then some (JVal.obj [], r2)
              else
                match parseObjItems fuel rest with
                | some (kvs, r3) =>
                    some (JVal.obj
                      (kvs.foldl (fun m kv => dictInsert m kv.1 kv.2) []), r3)
                | none => none
          | [] => none
        else if isDigitChar c then
          match parseNatAux (c :: rest) 0 with
          | (n, r) =>
            match r with
            | c2 :: _ =>
                if c2.toNat = 46 ∨ c2.toNat = 101 ∨ c2.toNat = 69 then none
                else some (JVal.num n, r)
            | [] => some (JVal.num n, [])
        else none := rfl

theorem parseArrItems_eq (fuel : Nat) (cs : List Char) :
    parseArrItems (fuel + 1) cs =
      match parseJVal fuel cs with
      | none => none
      | some (v, r) =>
        match skipWs r with
        | [] => none
        | c :: r2 =>
          if c.toNat = 44 then
            match parseArrItems fuel r2 with
            | some (xs, r3) => some (v :: xs, r3)
            | none => none
          else if c.toNat = 93 then some ([v], r2)
          else none := rfl

theorem parseObjItems_eq (fuel : Nat) (cs : List Char) :
    parseObjItems (fuel + 1) cs =
      match skipWs cs with
      | [] => none
      | c :: rest =>
        if c.toNat = 34 then
          match parseJStringAux (rest.length + 1) rest with
          | none => none
          | some (k, r) =>
            match skipWs r with
            | [] => none
            | c2 :: r2 =>
              if c2.toNat = 58 then
                match parseJVal fuel r2 with
                | none => none
                | some (v, r3) =>
                  match skipWs r3 with
                  | [] => none
                  | c3 :: r4 =>
                    if c3.toNat = 44 then
                      match parseObjItems fuel r4 with
                      | some (kvs, r5) => some ((⟨k⟩, v) :: kvs, r5)
                      | none => none
                    else if c3.toNat = 125 then some ([(⟨k⟩, v)], r4)
                    else none
              else none
        else none := rfl

theorem encodeJChar_ne_nil (c : Char) : 1 ≤ (encodeJChar c).length := by
  unfold encodeJChar
  split_ifs <;> simp [toHex4]

theorem encodeJChars_length (cs : List Char) :
    cs.length ≤ (encodeJChars cs).length := by
  induction cs with
  | nil => simp [encodeJChars]
  | cons c t ih =>
    show (c :: t).length ≤ (encodeJChar c ++ encodeJChars t).length
    have h1 := encodeJChar_ne_nil c
    simp only [List.length_cons, List.length_append]
    omega

theorem skipWs_jStrDump (s : String) (r : List Char) :
    skipWs (jStrDumpChars s ++ r) = jStrDumpChars s ++ r := by
  show skipWs ('"' :: ((encodeJChars s.data ++ ['"']) ++ r)) = _
  exact skipWs_notWs _ _ (by decide)

theorem skipWs_natDump (v : Nat) (r : List Char) :
    skipWs (natDump v ++ r) = natDump v ++ r := by
  obtain ⟨c0, ds, hnd⟩ : ∃ c0 ds, natDump v = c0 :: ds := by
    cases hh : natDump v with
    | nil => exact absurd hh (natDump_ne_nil v)
    | cons a b => exact ⟨a, b, rfl⟩
  have hb := isDigitChar_bounds c0
    (natDump_digits v c0 (by rw [hnd]; exact List.mem_cons_self _ _))
  rw [hnd, List.cons_append]
  exact skipWs_notWs _ _ (by omega)

/-- A serialized string body parses as one JSON string value. -/
theorem parseJVal_str (s : String) (g : Nat) (cs rest : List Char)
    (hskip : skipWs cs = jStrDumpChars s ++ rest) :
    parseJVal (g + 1) cs = some (JVal.str s, rest) := by
  rw [parseJVal_eq, hskip]
  have hshape : jStrDumpChars s ++ rest =
      '"' :: (encodeJChars s.data ++ ('"' :: rest)) := by
    show ('"' :: (encodeJChars s.data ++ ['"'])) ++ rest = _
    simp [List.append_assoc]
  rw [hshape]
  dsimp only
  rw [if_pos (show ('"').toNat = 34 from rfl)]
  have hlen : (encodeJChars s.data ++ ('"' :: rest)).length + 1 =
      s.data.length +
        ((encodeJChars s.data).length - s.data.length + rest.length + 1) + 1 := by
    have := encodeJChars_length s.data
    simp only [List.length_append, List.length_cons]
    omega
  rw [hlen, parseJStringAux_encode s.data _ rest]

/-- A serialized number parses as one JSON integer value. -/
theorem parseJVal_num (v : Nat) (g : Nat) (cs rest : List Char)
    (hskip : skipWs cs = natDump v ++ rest) (hrest : headSep rest) :
    parseJVal (g + 1) cs = some (JVal.num v, rest) := by
  rw [parseJVal_eq, hskip]
  obtain ⟨c0, ds, hnd⟩ : ∃ c0 ds, natDump v = c0 :: ds := by
    cases hh : natDump v with
    | nil => exact absurd hh (natDump_ne_nil v)
    | cons a b => exact ⟨a, b, rfl⟩
  have hc0 : isDigitChar c0 = true :=
    natDump_digits v c0 (by rw [hnd]; exact List.mem_cons_self _ _)
  have hb := isDigitChar_bounds c0 hc0
  rw [hnd, List.cons_append]
  dsimp only
  rw [if_neg (by omega), if_neg (by omega), if_neg (by omega), if_pos hc0]
  have hsteps : parseNatAux (c0 :: (ds ++ rest)) 0 = parseNatAux rest v := by
    rw [show c0 :: (ds ++ rest) = (c0 :: ds) ++ rest from rfl, ← hnd]
    rw [parseNatAux_digits (natDump v) (natDump_digits v) 0 rest]
    rw [foldl_natDump]
  rw [hsteps]
  cases rest with
  | nil => rfl
  | cons c2 t =>
    obtain ⟨hd, h46, h101, h69⟩ := hrest
    have hstop : parseNatAux (c2 :: t) v = (v, c2 :: t) := by
      simp only [parseNatAux]
      rw [if_neg (by simp [hd])]
    rw [hstop]
    dsimp only
    rw [if_neg (by omega)]

theorem objItemsDump_cons (k : String) (v : Nat) (x : String × Nat)
    (t : Dict String Nat) :
    objItemsDump ((k, v) :: x :: t) =
      jStrDumpChars k ++ (':' :: ' ' :: natDump v) ++
        (',' :: ' ' :: objItemsDump (x :: t)) := rfl

theorem objItemsDump_head (x : String × Nat) (xs : Dict String Nat) :
    ∃ tail, objItemsDump (x :: xs) = '"' :: tail := by
  obtain ⟨k, v⟩ := x
  cases xs with
  | nil => exact ⟨_, rfl⟩
  | cons y ys => exact ⟨_, rfl⟩

theorem skipWs_objItemsDump (x : String × Nat) (xs : Dict String Nat)
    (r : List Char) :
    skipWs (objItemsDump (x :: xs) ++ r) = objItemsDump (x :: xs) ++ r := by
  obtain ⟨tail, htail⟩ := objItemsDump_head x xs
  rw [htail, List.cons_append]
  exact skipWs_notWs _ _ (by decide)

/-- One or more serialized object items followed by the closing brace parse
back to the original entries (in order, values as JSON integers). -/
theorem parseObjItems_dump :
    ∀ (l : Dict String Nat), l ≠ [] →
    ∀ (g : Nat) (cs rest : List Char),
      skipWs cs = objItemsDump l ++ ('}' :: rest) →
      parseObjItems (l.length + g + 1) cs =
        some (l.map (fun kv => (kv.1, JVal.num kv.2)), rest)
  | [], hl, _, _, _, _ => absurd rfl hl
  | [(k, v)], _, g, cs, rest, hskip => by
      rw [show [(k, v)].length + g + 1 = (g + 1) + 1 from by simp <;> omega]
      rw [parseObjItems_eq, hskip]
      have hshape : objItemsDump [(k, v)] ++ ('}' :: rest) =
          '"' :: (encodeJChars k.data ++
            ('"' :: (':' :: ' ' :: (natDump v ++ ('}' :: rest))))) := by
        show (jStrDumpChars k ++ (':' :: ' ' :: natDump v)) ++ ('}' :: rest) = _
        show (('"' :: (encodeJChars k.data ++ ['"'])) ++
          (':' :: ' ' :: natDump v)) ++ ('}' :: rest) = _
        simp [List.append_assoc]
      rw [hshape]
      dsimp only
      rw [if_pos (show ('"').toNat = 34 from rfl)]
      have hlen : (encodeJChars k.data ++
          ('"' :: (':' :: ' ' :: (natDump v ++ ('}' :: rest))))).length + 1 =
          k.data.length + ((encodeJChars k.data).length - k.data.length +
            (natDump v).length + rest.length + 4) + 1 := by
        have := encodeJChars_length k.data
        simp only [List.length_append, List.length_cons]
        omega
      rw [hlen, parseJStringAux_encode k.data _ _]
      dsimp only
      rw [show skipWs (':' :: ' ' :: (natDump v ++ ('}' :: rest))) =
        ':' :: ' ' :: (natDump v ++ ('}' :: rest)) from skipWs_notWs _ _ (by decide)]
      dsimp only
      rw [if_pos (show (':').toNat = 58 from rfl)]
      rw [parseJVal_num v g _ ('}' :: rest)
        (by rw [skipWs_space]; exact skipWs_natDump v _)
        (by exact ⟨by decide, by decide, by decide, by decide⟩)]
      dsimp only
      rw [show skipWs ('}' :: rest) = '}' :: rest from skipWs_notWs _ _ (by decide)]
      dsimp only
      rw [if_neg (by decide), if_pos (show ('}').toNat = 125 from rfl)]
      rfl
  | (k, v) :: x :: t, _, g, cs, rest, hskip => by
      rw [show ((k, v) :: x :: t).length + g + 1 =
        ((x :: t).length + g + 1) + 1 from by simp <;> omega]
      rw [parseObjItems_eq, hskip]
      have hshape : objItemsDump ((k, v) :: x :: t) ++ ('}' :: rest) =
          '"' :: (encodeJChars k.data ++
            ('"' :: (':' :: ' ' :: (natDump v ++
              (',' :: ' ' :: (objItemsDump (x :: t) ++ ('}' :: rest))))))) := by
        rw [objItemsDump_cons]
        show ((('"' :: (encodeJChars k.data ++ ['"'])) ++
          (':' :: ' ' :: natDump v)) ++
            (',' :: ' ' :: objItemsDump (x :: t))) ++ ('}' :: rest) = _
        simp [List.append_assoc]
      rw [hshape]
      dsimp only
      rw [if_pos (show ('"').toNat = 34 from rfl)]
      have hlen : (encodeJChars k.data ++
          ('"' :: (':' :: ' ' :: (natDump v ++
            (',' :: ' ' :: (objItemsDump (x :: t) ++ ('}' :: rest))))))).length + 1 =
          k.data.length + ((encodeJChars k.data).length - k.data.length +
            (natDump v).length + (objItemsDump (x :: t)).length +
              rest.length + 6) + 1 := by
        have := encodeJChars_length k.data
        simp only [List.length_append, List.length_cons]
        omega
      rw [hlen, parseJStringAux_encode k.data _ _]
      dsimp only
      rw [show skipWs (':' :: ' ' :: (natDump v ++
        (',' :: ' ' :: (objItemsDump (x :: t) ++ ('}' :: rest))))) =
        ':' :: ' ' :: (natDump v ++
          (',' :: ' ' :: (objItemsDump (x :: t) ++ ('}' :: rest))))
        from skipWs_notWs _ _ (by decide)]
      dsimp only
      rw [if_pos (show (':').toNat = 58 from rfl)]
      rw [parseJVal_num v ((x :: t).length + g) _
        (',' :: ' ' :: (objItemsDump (x :: t) ++ ('}' :: rest)))
        (by rw [skipWs_space]; exact skipWs_natDump v _)
        (by exact ⟨by decide, by decide, by decide, by decide⟩)]
      dsimp only
      rw [show skipWs (',' :: ' ' :: (objItemsDump (x :: t) ++ ('}' :: rest))) =
        ',' :: ' ' :: (objItemsDump (x :: t) ++ ('}' :: rest))
        from skipWs_notWs _ _ (by decide)]
      dsimp only
      rw [if_pos (show (',').toNat = 44 from rfl)]
      rw [parseObjItems_dump (x :: t) (by simp) g
        (' ' :: (objItemsDump (x :: t) ++ ('}' :: rest))) rest
        (by rw [skipWs_space]; exact skipWs_objItemsDump x t _)]
      rfl

theorem objDumpChars_shape (l : Dict String Nat) (rest : List Char) :
    objDumpChars l ++ rest = '{' :: (objItemsDump l ++ ('}' :: rest)) := by
  show ('{' :: (objItemsDump l ++ ['}'])) ++ rest = _
  simp [List.append_assoc]

/-- A serialized object parses as one JSON object value, its pairs merged
with `dict` semantics. -/
theorem parseJVal_objDump (l : Dict String Nat) (g : Nat) (cs rest : List Char)
    (hskip : skipWs cs = objDumpChars l ++ rest) :
    parseJVal (l.length + g + 2) cs =
      some (JVal.obj ((l.map (fun kv => (kv.1, JVal.num kv.2))).foldl
        (fun m kv => dictInsert m kv.1 kv.2) []), rest) := by
  rw [show l.length + g + 2 = (l.length + g + 1) + 1 from rfl]
  rw [parseJVal_eq, hskip, objDumpChars_shape]
  dsimp only
  rw [if_neg (by decide), if_neg (by decide),
    if_pos (show ('{').toNat = 123 from rfl)]
  cases l with
  | nil =>
      rw [show objItemsDump [] ++ ('}' :: rest) = '}' :: rest from rfl]
      rw [show skipWs ('}' :: rest) = '}' :: rest from skipWs_notWs _ _ (by decide)]
      dsimp only
      rw [if_pos (show ('}').toNat = 125 from rfl)]
      rfl
  | cons x xs =>
      rw [skipWs_objItemsDump x xs ('}' :: rest)]
      obtain ⟨tail, htail⟩ := objItemsDump_head x xs
      rw [htail, List.cons_append]
      dsimp only
      rw [if_neg (by decide)]
      rw [← List.cons_append, ← htail]
      rw [parseObjItems_dump (x :: xs) (by simp) g _ rest
        (skipWs_objItemsDump x xs ('}' :: rest))]

theorem lsDumps_data (origin : String) (seq : Nat) (links : Dict String Nat) :
    (lsDumps origin seq links).data =
      '[' :: (jStrDumpChars origin ++
        (',' :: (' ' :: (natDump seq ++
          (',' :: (' ' :: (objDumpChars links ++ [']']))))))) := by
  show '[' :: (jStrDumpChars origin ++
    (',' :: ' ' :: natDump seq ++
      (',' :: ' ' :: objDumpChars links ++ [']']))) = _
  simp [List.append_assoc]

/-- The serialized LS triple parses as the corresponding JSON array. -/
theorem parseJVal_lsTriple (origin : String) (seq : Nat)
    (links : Dict String Nat) (g : Nat) :
    parseJVal (links.length + g + 6) ((lsDumps origin seq links).data) =
      some (JVal.arr [JVal.str origin, JVal.num seq,
        JVal.obj ((links.map (fun kv => (kv.1, JVal.num kv.2))).foldl
          (fun m kv => dictInsert m kv.1 kv.2) [])], []) := by
  rw [lsDumps_data]
  rw [show links.length + g + 6 = (links.length + g + 5) + 1 from rfl]
  rw [parseJVal_eq]
  rw [show skipWs ('[' :: (jStrDumpChars origin ++
      (',' :: (' ' :: (natDump seq ++
        (',' :: (' ' :: (objDumpChars links ++ [']'])))))))) =
    '[' :: (jStrDumpChars origin ++
      (',' :: (' ' :: (natDump seq ++
        (',' :: (' ' :: (objDumpChars links ++ [']']))))))) from
    skipWs_notWs _ _ (by decide)]
  dsimp only
  rw [if_neg (by decide), if_pos (show ('[').toNat = 91 from rfl)]
  rw [skipWs_jStrDump origin _]
  obtain ⟨tail0, htail0⟩ :
      ∃ tail0, jStrDumpChars origin = '"' :: tail0 := ⟨_, rfl⟩
  rw [htail0, List.cons_append]
  dsimp only
  rw [if_neg (by decide)]
  rw [← List.cons_append, ← htail0]
  -- first item: the origin string
  rw [show links.length + g + 5 = (links.length + g + 4) + 1 from rfl]
  rw [parseArrItems_eq]
  rw [parseJVal_str origin (links.length + g + 3) _ _ (skipWs_jStrDump origin _)]
  dsimp only
  rw [show skipWs (',' :: (' ' :: (natDump seq ++
      (',' :: (' ' :: (objDumpChars links ++ [']'])))))) =
    ',' :: (' ' :: (natDump seq ++
      (',' :: (' ' :: (objDumpChars links ++ [']']))))) from
    skipWs_notWs _ _ (by decide)]
  dsimp only
  rw [if_pos (show (',').toNat = 44 from rfl)]
  -- second item: the sequence number
  rw [show links.length + g + 4 = (links.length + g + 3) + 1 from rfl]
  rw [parseArrItems_eq]
  rw [parseJVal_num seq (links.length + g + 2) _
    (',' :: (' ' :: (objDumpChars links ++ [']'])))
    (by rw [skipWs_space]; exact skipWs_natDump seq _)
    ⟨by decide, by decide, by decide, by decide⟩]
  dsimp only
  rw [show skipWs (',' :: (' ' :: (objDumpChars links ++ [']']))) =
    ',' :: (' ' :: (objDumpChars links ++ [']'])) from
    skipWs_notWs _ _ (by decide)]
  dsimp only
  rw [if_pos (show (',').toNat = 44 from rfl)]
  -- third item: the links object
  rw [show links.length + g + 3 = (links.length + g + 2) + 1 from rfl]
  rw [parseArrItems_eq]
  rw [parseJVal_objDump links g _ [']']
    (by rw [skipWs_space]
        rw [objDumpChars_shape]
        exact skipWs_notWs _ _ (by decide))]
  dsimp only
  rw [show skipWs [']'] = [']'] from skipWs_notWs _ _ (by decide)]
  dsimp only
  rw [if_neg (by decide), if_pos (show (']').toNat = 93 from rfl)]

theorem natDump_length_pos (n : Nat) : 1 ≤ (natDump n).length := by
  cases hh : natDump n with
  | nil => exact absurd hh (natDump_ne_nil n)
  | cons a b => simp

theorem objItemsDump_length :
    ∀ l : Dict String Nat, l.length ≤ (objItemsDump l).length
  | [] => by simp [objItemsDump]
  | [(k, v)] => by
      show 1 ≤ (jStrDumpChars k ++ (':' :: ' ' :: natDump v)).length
      simp [jStrDumpChars]
  | (k, v) :: x :: t => by
      rw [objItemsDump_cons]
      have h1 := objItemsDump_length (x :: t)
      simp only [List.length_append, List.length_cons] at h1 ⊢
      omega

theorem lsDumps_length_ge (o : String) (q : Nat) (links : Dict String Nat) :
    links.length + 5 ≤ (lsDumps o q links).length := by
  have h1 : (lsDumps o q links).length = ((lsDumps o q links).data).length := rfl
  rw [h1, lsDumps_data]
  have h2 := objItemsDump_length links
  have h3 : (objDumpChars links).length = (objItemsDump links).length + 2 := by
    show ('{' :: (objItemsDump links ++ ['}'])).length = _
    simp
  simp only [List.length_cons, List.length_append, h3]
  omega

/-- `json.loads` recovers the JSON array that `json.dumps` wrote for the LS
triple (object keys merged with `dict` semantics). -/
theorem jsonLoads_lsDumps (o : String) (q : Nat) (links : Dict String Nat) :
    jsonLoads (lsDumps o q links) =
      some (JVal.arr [JVal.str o, JVal.num q,
        JVal.obj ((links.map (fun kv => (kv.1, JVal.num kv.2))).foldl
          (fun m kv => dictInsert m kv.1 kv.2) [])]) := by
  unfold jsonLoads
  have hge := lsDumps_length_ge o q links
  rw [show (lsDumps o q links).length + 1 =
    links.length + ((lsDumps o q links).length - links.length - 5) + 6 from by omega]
  rw [parseJVal_lsTriple]
  rfl

theorem alookup_append [DecidableEq α] (a b : Dict α β) (k : α) :
    alookup (a ++ b) k =
      match alookup a k with
      | some v => some v
      | none => alookup b k := by
  induction a with
  | nil => rfl
  | cons x t ih =>
    obtain ⟨x1, x2⟩ := x
    by_cases hx : x1 = k <;> simp [alookup, hx, ih]

theorem dictInsert_append_of_none [DecidableEq α] (m : Dict α β) (k : α) (v : β)
    (h : alookup m k = none) : dictInsert m k v = m ++ [(k, v)] := by
  induction m with
  | nil => rfl
  | cons x t ih =>
    obtain ⟨x1, x2⟩ := x
    by_cases hx : x1 = k
    · rw [alookup_cons, if_pos hx] at h
      cases h
    · rw [alookup_cons, if_neg hx] at h
      simp [dictInsert, hx, ih h]

theorem foldl_dictInsert_eq_append [DecidableEq α] :
    ∀ (l acc : Dict α β), (∀ k ∈ l.map Prod.fst, alookup acc k = none) →
      (l.map Prod.fst).Nodup →
      l.foldl (fun m kv => dictInsert m kv.1 kv.2) acc = acc ++ l := by
  intro l
  induction l with
  | nil => intro acc _ _; simp
  | cons kv t ih =>
    intro acc hnone hnodup
    obtain ⟨k, v⟩ := kv
    have hk : alookup acc k = none := hnone k (by simp)
    have hstep : dictInsert acc k v = acc ++ [(k, v)] :=
      dictInsert_append_of_none acc k v hk
    simp only [List.foldl_cons]
    rw [hstep]
    have hmap : ((k, v) :: t).map Prod.fst = k :: t.map Prod.fst := rfl
    rw [hmap] at hnodup
    have hknott : k ∉ t.map Prod.fst := (List.nodup_cons.mp hnodup).1
    have hrest : ∀ k' ∈ t.map Prod.fst, alookup (acc ++ [(k, v)]) k' = none := by
      intro k' hk'
      rw [alookup_append]
      rw [hnone k' (by simp [hk'])]
      have hne : k ≠ k' := fun hh => hknott (hh ▸ hk')
      simp [alookup, hne]
    rw [ih (acc ++ [(k, v)]) hrest (List.nodup_cons.mp hnodup).2]
    simp

theorem foldl_dictInsert_nodup [DecidableEq α] (l : Dict α β)
    (h : (l.map Prod.fst).Nodup) :
    l.foldl (fun m kv => dictInsert m kv.1 kv.2) [] = l := by
  have := foldl_dictInsert_eq_append l [] (fun k _ => rfl) h
  simpa using this

/-- The success path of `origin, seq, links = json.loads(packet.content)`
followed by the typed uses the handler makes of the triple.  Contents on
which the real handler raises instead of returning are treated separately
(see `lsRoutingDynLsdb`). -/
def parseLSTriple (c : String) : Option (String × Nat × Dict String Nat) :=
  match jsonLoads c with
  | some (JVal.arr [JVal.str o, JVal.num q, JVal.obj kvs]) =>
      match asLinks kvs with
      | some links => some (o, q, links)
      | none => none
  | _ => none

theorem asLinks_map (l : Dict String Nat) :
    asLinks (l.map (fun kv => (kv.1, JVal.num kv.2))) = some l := by
  induction l with
  | nil => rfl
  | cons kv t ih =>
    obtain ⟨k, v⟩ := kv
    show asLinks ((k, JVal.num v) :: t.map (fun kv => (kv.1, JVal.num kv.2))) = _
    simp only [asLinks, ih]

theorem mapped_keys_nodup (links : Dict String Nat)
    (h : (links.map Prod.fst).Nodup) :
    ((links.map (fun kv => (kv.1, JVal.num kv.2))).map Prod.fst).Nodup := by
  have : (links.map (fun kv => (kv.1, JVal.num kv.2))).map Prod.fst =
      links.map Prod.fst := by
    simp [List.map_map]
  rw [this]
  exact h

/-- Full round-trip for the LS wire content at the level of the typed triple. -/
theorem parseLSTriple_lsDumps (o : String) (q : Nat) (links : Dict String Nat)
    (h : (links.map Prod.fst).Nodup) :
    parseLSTriple (lsDumps o q links) = some (o, q, links) := by
  unfold parseLSTriple
  rw [jsonLoads_lsDumps]
  rw [foldl_dictInsert_nodup _ (mapped_keys_nodup links h)]
  dsimp only
  rw [asLinks_map]


/-- C5: for every LS content triple (string origin, integer sequence number,
links map with unique string keys and integer costs), `json.loads` of the
`json.dumps` output the LS router produces yields the triple back: the JSON
value is exactly the serialized array, and the handler's destructuring
recovers origin, sequence number and links unchanged. -/
theorem ls_wire_roundtrip (origin : String) (seq : Nat)
    (links : Dict String Nat) (h : (links.map Prod.fst).Nodup) :
    jsonLoads (lsDumps origin seq links) =
      some (JVal.arr [JVal.str origin, JVal.num seq,
        JVal.obj (links.map (fun kv => (kv.1, JVal.num kv.2)))]) ∧
    parseLSTriple (lsDumps origin seq links) = some (origin, seq, links) := by
  constructor
  · rw [jsonLoads_lsDumps]
    rw [foldl_dictInsert_nodup _ (mapped_keys_nodup links h)]
  · exact parseLSTriple_lsDumps origin seq links h

theorem ls_wire_roundtrip_witness :
    (((([("B", 2), ("C", 5)] : Dict String Nat).map Prod.fst).Nodup) ∧
      jsonLoads (lsDumps "A" 7 [("B", 2), ("C", 5)]) =
        some (JVal.arr [JVal.str "A", JVal.num 7,
          JVal.obj [("B", JVal.num 2), ("C", JVal.num 5)]]) ∧
      parseLSTriple (lsDumps "A" 7 [("B", 2), ("C", 5)]) =
        some ("A", 7, [("B", 2), ("C", 5)])) :=
  ⟨by decide,
   (ls_wire_roundtrip "A" 7 [("B", 2), ("C", 5)] (by decide)).1,
   (ls_wire_roundtrip "A" 7 [("B", 2), ("C", 5)] (by decide)).2⟩

/-! ## LS router model (`LSrouter.py`) -/

/-- A packet as the LS router sees it; routing packets carry the JSON string
produced by `json.dumps`. -/
inductive LSPacket where
  | traceroute (srcAddr dstAddr : String)
  | routing (srcAddr dstAddr : String) (content : String)
  deriving DecidableEq, Repr

/-- State of `LSrouter`: `lsdb : addr -> (seq_num, links)`,
`neighbors : port -> (neighbor_addr, cost)`,
`forwarding_table : dest -> (port, cost)`. -/
structure LSState where
  addr : String
  heartbeatTime : Nat
  lastTime : Nat
  lsdb : Dict String (Nat × Dict String Nat)
  neighbors : Dict Nat (String × Nat)
  forwardingTable : Dict String (Nat × Nat)
  seqNum : Nat
  deriving DecidableEq, Repr

/-- `LSrouter.__init__`. -/
def lsInit (addr : String) (heartbeatTime : Nat) : LSState :=
  { addr := addr, heartbeatTime := heartbeatTime, lastTime := 0,
    lsdb := [], neighbors := [], forwardingTable := [], seqNum := 0 }

/-- `heapq` orders `(cost, vertex)` tuples lexicographically. -/
def lexLt (a b : Nat × String) : Bool := a.1 < b.1 ∨ (a.1 = b.1 ∧ a.2 < b.2)

def removeFirst [DecidableEq α] : List α → α → List α
  | [], _ => []
  | y :: t, a => if y = a then t else y :: removeFirst t a

/-- `heapq.heappop`: return the least tuple and the heap without (one copy
of) it.  Equal minima are identical tuples, so which copy is removed is
immaterial. -/
def heapPopMin : List (Nat × String) → Option ((Nat × String) × List (Nat × String))
  | [] => none
  | x :: xs =>
      let m := xs.foldl (fun m y => if lexLt y m then y else m) x
      some (m, removeFirst (x :: xs) m)

/-- Fuel bound for the Dijkstra loop: every pop either skips a visited vertex
or visits a new one, and every push strictly lowers a key's finite distance,
which is bounded by the total weight of the graph; the product below therefore
exceeds the number of iterations on any input, so the loop always stops by
running out of heap, never out of fuel. -/
def dijkstraFuel (graph : Dict String (Dict String Nat)) : Nat :=
  let entries := graph.foldl (fun acc rv => acc + rv.2.length + 1) 1
  let weight := graph.foldl
    (fun acc rv => acc + rv.2.foldl (fun a vw => a + vw.2) 0) 0
  (entries + 1) * (weight + 2)

/-- The `while heap:` loop of `run_dijkstra`: pop the closest vertex, skip it
if already visited, otherwise relax its outgoing edges (`graph.get(u, {})`),
pushing strictly improved tentative distances. -/
def dijkstraLoop (graph : Dict String (Dict String Nat)) :
    Nat → List (Nat × String) → Dict String Nat → Dict String String →
      List String → Dict String Nat × Dict String String
  | 0, _, dist, prevM, _ => (dist, prevM)
  | fuel + 1, heap, dist, prevM, visited =>
    match heapPopMin heap with
    | none => (dist, prevM)
    | some ((d, u), rest) =>
      if u ∈ visited then dijkstraLoop graph fuel rest dist prevM visited
      else
        let st := ((alookup graph u).getD []).foldl
          (fun (st : List (Nat × String) × Dict String Nat × Dict String String)
               (vw : String × Nat) =>
            let nd := d + vw.2
            match alookup st.2.1 vw.1 with
            | none => ((nd, vw.1) :: st.1, dictInsert st.2.1 vw.1 nd,
                dictInsert st.2.2 vw.1 u)
            | some dv =>
                if nd < dv then
                  ((nd, vw.1) :: st.1, dictInsert st.2.1 vw.1 nd,
                    dictInsert st.2.2 vw.1 u)
                else st)
          (rest, dist, prevM)
        dijkstraLoop graph fuel st.1 st.2.1 st.2.2 (u :: visited)

/-- The trace-back `while prev.get(next_hop) != self.addr` of `run_dijkstra`.
The fuel (one more than the size of `prev`) covers any acyclic predecessor
chain, which is what the loop receives from the search above; on a cyclic
chain the Python loop would not terminate, and the model returns `none`. -/
def traceNextHop (prevM : Dict String String) (addr : String) :
    Nat → String → Option String
  | 0, _ => none
  | fuel + 1, nextHop =>
    match alookup prevM nextHop with
    | some p => if p = addr then some nextHop else traceNextHop prevM addr fuel p
    | none => none

/-- The forwarding-table rebuild of `run_dijkstra`: for each reachable
destination other than the router itself, walk back to the next hop and
install the first neighbor port bearing its address. -/
def rebuildFT (addr : String) (neighbors : Dict Nat (String × Nat))
    (dist : Dict String Nat) (prevM : Dict String String) :
    Dict String (Nat × Nat) :=
  dist.foldl
    (fun ft dtc =>
      if dtc.1 = addr then ft
      else
        match traceNextHop prevM addr (prevM.length + 1) dtc.1 with
        | none => ft
        | some nextHop =>
            match neighbors.find? (fun e => e.2.1 = nextHop) with
            | none => ft
            | some (port, _, _) => dictInsert ft dtc.1 (port, dtc.2))
    []

/-- `LSrouter.run_dijkstra`. -/
def runDijkstra (s : LSState) : LSState :=
  let graph : Dict String (Dict String Nat) :=
    s.lsdb.map (fun rv => (rv.1, rv.2.2))
  let dp := dijkstraLoop graph (dijkstraFuel graph) [(0, s.addr)]
    [(s.addr, 0)] [] []
  { s with forwardingTable := rebuildFT s.addr s.neighbors dp.1 dp.2 }

/-- `LSrouter.advertise_lsp`: build the links map, record the own LSP in the
LSDB, flood it, then recompute routes. -/
def advertiseLsp (s : LSState) : LSState × List (Nat × LSPacket) :=
  let links := s.neighbors.foldl (fun m pnc => dictInsert m pnc.2.1 pnc.2.2) []
  let s := { s with lsdb := dictInsert s.lsdb s.addr (s.seqNum, links) }
  let contentStr := lsDumps s.addr s.seqNum links
  let sends := s.neighbors.map
    (fun pnc => (pnc.1, LSPacket.routing s.addr pnc.2.1 contentStr))
  let s := runDijkstra s
  (s, sends)

/-- `LSrouter.handle_new_link`. -/
def lsHandleNewLink (s : LSState) (port : Nat) (endpoint : String) (cost : Nat) :
    LSState × List (Nat × LSPacket) :=
  advertiseLsp { s with neighbors := dictInsert s.neighbors port (endpoint, cost),
                        seqNum := s.seqNum + 1 }

/-- `LSrouter.handle_remove_link`. -/
def lsHandleRemoveLink (s : LSState) (port : Nat) :
    LSState × List (Nat × LSPacket) :=
  if (alookup s.neighbors port).isSome then
    advertiseLsp { s with neighbors := eraseKey s.neighbors port,
                          seqNum := s.seqNum + 1 }
  else (s, [])

/-- `LSrouter.handle_time`. -/
def lsHandleTime (s : LSState) (timeMs : Nat) : LSState × List (Nat × LSPacket) :=
  if (timeMs : Int) - (s.lastTime : Int) ≥ (s.heartbeatTime : Int) then
    advertiseLsp { s with lastTime := timeMs, seqNum := s.seqNum + 1 }
  else (s, [])

/-- `LSrouter.handle_packet`.  A routing packet whose content parses as the
protocol's triple is installed when its sequence number is fresh, routes are
recomputed and the LSP is re-flooded to every neighbor except the ingress
port; stale sequence numbers are dropped.  Contents the real handler raises
on instead of dropping are treated in the dynamic model `lsRoutingDynLsdb`. -/
def lsHandlePacket (s : LSState) (port : Nat) (pkt : LSPacket) :
    LSState × List (Nat × LSPacket) :=
  match pkt with
  | LSPacket.traceroute _ dstAddr =>
      match alookup s.forwardingTable dstAddr with
      | some (outPort, _) => (s, [(outPort, pkt)])
      | none => (s, [])
  | LSPacket.routing _ _ content =>
      match parseLSTriple content with
      | none => (s, [])
      | some (origin, seq, links) =>
          let install :=
            match alookup s.lsdb origin with
            | none => true
            | some prev => seq > prev.1
          if install then
            let s := { s with lsdb := dictInsert s.lsdb origin (seq, links) }
            let s := runDijkstra s
            let contentStr := lsDumps origin seq links
            let sends := s.neighbors.filterMap
              (fun pnc =>
                if pnc.1 ≠ port then
                  some (pnc.1, LSPacket.routing s.addr pnc.2.1 contentStr)
                else none)
            (s, sends)
          else (s, [])

/-- The four events the environment can deliver to an LS router. -/
inductive LSEvent where
  | newLink (port : Nat) (endpoint : String) (cost : Nat)
  | removeLink (port : Nat)
  | tick (timeMs : Nat)
  | packet (port : Nat) (pkt : LSPacket)
  deriving DecidableEq, Repr

/-- One event-handler invocation of an LS router. -/
def lsStep (s : LSState) (e : LSEvent) : LSState × List (Nat × LSPacket) :=
  match e with
  | LSEvent.newLink port endpoint cost => lsHandleNewLink s port endpoint cost
  | LSEvent.removeLink port => lsHandleRemoveLink s port
  | LSEvent.tick timeMs => lsHandleTime s timeMs
  | LSEvent.packet port pkt => lsHandlePacket s port pkt

/-- States of an LS router reachable from construction by any event sequence. -/
inductive LSReachable (addr : String) (heartbeatTime : Nat) : LSState → Prop where
  | init : LSReachable addr heartbeatTime (lsInit addr heartbeatTime)
  | step {s : LSState} (e : LSEvent) :
      LSReachable addr heartbeatTime s →
      LSReachable addr heartbeatTime (lsStep s e).1

/-- C8: a tick strictly inside the heartbeat period is a complete no-op for
both routers: no state change (including `last_time`) and no sends. -/
theorem tick_before_heartbeat_noop (sd : DVState) (sl : LSState) (t u : Nat)
    (hd : (t : Int) - (sd.lastTime : Int) < (sd.heartbeatTime : Int))
    (hl : (u : Int) - (sl.lastTime : Int) < (sl.heartbeatTime : Int)) :
    dvHandleTime sd t = (sd, []) ∧ lsHandleTime sl u = (sl, []) := by
  constructor
  · unfold dvHandleTime
    rw [if_neg (by omega)]
  · unfold lsHandleTime
    rw [if_neg (by omega)]

theorem tick_before_heartbeat_noop_witness :
    ((50 : Int) - ((dvInit "A" 100).lastTime : Int) <
        ((dvInit "A" 100).heartbeatTime : Int) ∧
      (50 : Int) - ((lsInit "A" 100).lastTime : Int) <
        ((lsInit "A" 100).heartbeatTime : Int)) ∧
    dvHandleTime (dvInit "A" 100) 50 = (dvInit "A" 100, []) ∧
    lsHandleTime (lsInit "A" 100) 50 = (lsInit "A" 100, []) :=
  ⟨⟨by decide, by decide⟩,
   (tick_before_heartbeat_noop (dvInit "A" 100) (lsInit "A" 100) 50 50
      (by decide) (by decide)).1,
   (tick_before_heartbeat_noop (dvInit "A" 100) (lsInit "A" 100) 50 50
      (by decide) (by decide)).2⟩

theorem lsHandlePacket_routing_eq (s : LSState) (port : Nat)
    (srcA dstA content : String) :
    lsHandlePacket s port (LSPacket.routing srcA dstA content) =
      match parseLSTriple content with
      | none => (s, [])
      | some (origin, seq, links) =>
          let install :=
            match alookup s.lsdb origin with
            | none => true
            | some prev => seq > prev.1
          if install then
            let s := { s with lsdb := dictInsert s.lsdb origin (seq, links) }
            let s := runDijkstra s
            let contentStr := lsDumps origin seq links
            let sends := s.neighbors.filterMap
              (fun pnc =>
                if pnc.1 ≠ port then
                  some (pnc.1, LSPacket.routing s.addr pnc.2.1 contentStr)
                else none)
            (s, sends)
          else (s, []) := rfl

theorem runDijkstra_lsdb (s : LSState) : (runDijkstra s).lsdb = s.lsdb := rfl

/-- C2: a Routing packet whose parsed sequence number does not exceed the one
stored for its origin changes no state and sends nothing; consequently a
second identical delivery after any first delivery is a silent no-op. -/
theorem ls_stale_lsp_noop (s : LSState) (port : Nat) (srcA dstA content : String)
    (origin : String) (seq : Nat) (links : Dict String Nat)
    (hparse : parseLSTriple content = some (origin, seq, links)) :
    (∀ prevSeq prevLinks, alookup s.lsdb origin = some (prevSeq, prevLinks) →
      seq ≤ prevSeq →
      lsHandlePacket s port (LSPacket.routing srcA dstA content) = (s, [])) ∧
    lsHandlePacket
        (lsHandlePacket s port (LSPacket.routing srcA dstA content)).1 port
        (LSPacket.routing srcA dstA content) =
      ((lsHandlePacket s port (LSPacket.routing srcA dstA content)).1, []) := by
  constructor
  · intro prevSeq prevLinks hprev hle
    rw [lsHandlePacket_routing_eq, hparse]
    dsimp only
    rw [hprev]
    dsimp only
    rw [if_neg (by simp; omega)]
  · by_cases hinst : (match alookup s.lsdb origin with
      | none => true
      | some prev => decide (seq > prev.1)) = true
    · have h1 : (lsHandlePacket s port (LSPacket.routing srcA dstA content)).1.lsdb =
          dictInsert s.lsdb origin (seq, links) := by
        rw [lsHandlePacket_routing_eq, hparse]
        dsimp only
        rw [hinst]
        rfl
      rw [lsHandlePacket_routing_eq, hparse]
      dsimp only
      rw [h1, alookup_dictInsert_self]
      dsimp only
      rw [if_neg (by simp)]
    · have hfalse : (match alookup s.lsdb origin with
          | none => true
          | some prev => decide (seq > prev.1)) = false := by
        cases hmm : (match alookup s.lsdb origin with
          | none => true
          | some prev => decide (seq > prev.1)) with
        | true => exact absurd hmm hinst
        | false => rfl
      have h0 : lsHandlePacket s port (LSPacket.routing srcA dstA content) = (s, []) := by
        rw [lsHandlePacket_routing_eq, hparse]
        dsimp only
        rw [hfalse]
        rfl
      rw [h0]
      rw [lsHandlePacket_routing_eq, hparse]
      dsimp only
      rw [hfalse]
      rfl

/-- A concrete state holding a stored LSP for `"B"` with sequence number 5. -/
def lsStateWithB : LSState :=
  { addr := "A", heartbeatTime := 100, lastTime := 0,
    lsdb := [("B", (5, []))], neighbors := [(1, ("B", 2))],
    forwardingTable := [("B", (1, 2))], seqNum := 0 }

theorem ls_stale_lsp_noop_witness :
    (parseLSTriple (lsDumps "B" 3 []) = some ("B", 3, []) ∧
      alookup lsStateWithB.lsdb "B" = some (5, []) ∧ 3 ≤ 5) ∧
    lsHandlePacket lsStateWithB 1 (LSPacket.routing "B" "A" (lsDumps "B" 3 [])) =
      (lsStateWithB, []) ∧
    lsHandlePacket
        (lsHandlePacket lsStateWithB 1
          (LSPacket.routing "B" "A" (lsDumps "B" 3 []))).1 1
        (LSPacket.routing "B" "A" (lsDumps "B" 3 [])) =
      ((lsHandlePacket lsStateWithB 1
          (LSPacket.routing "B" "A" (lsDumps "B" 3 []))).1, []) :=
  ⟨⟨by decide, by decide, by decide⟩,
   (ls_stale_lsp_noop lsStateWithB 1 "B" "A" (lsDumps "B" 3 []) "B" 3 []
      (by decide)).1 5 [] (by decide) (by decide),
   (ls_stale_lsp_noop lsStateWithB 1 "B" "A" (lsDumps "B" 3 []) "B" 3 []
      (by decide)).2⟩

/-! ## Invariants of the LS forwarding table (C10, C3) -/

/-- The rebuild loop never installs an entry whose key is the router itself,
and it preserves that absence from its accumulator. -/
theorem rebuildFT_no_self (addr : String) (neighbors : Dict Nat (String × Nat))
    (dist : Dict String Nat) (prevM : Dict String String) :
    alookup (rebuildFT addr neighbors dist prevM) addr = none := by
  suffices h : ∀ (l : Dict String Nat) (acc : Dict String (Nat × Nat)),
      alookup acc addr = none →
      alookup (l.foldl
        (fun ft dtc =>
          if dtc.1 = addr then ft
          else
            match traceNextHop prevM addr (prevM.length + 1) dtc.1 with
            | none => ft
            | some nextHop =>
                match neighbors.find? (fun e => e.2.1 = nextHop) with
                | none => ft
                | some (port, _, _) => dictInsert ft dtc.1 (port, dtc.2)) acc)
        addr = none by
    exact h dist [] rfl
  intro l
  induction l with
  | nil => intro acc h; exact h
  | cons dtc t ih =>
    intro acc h
    simp only [List.foldl_cons]
    apply ih
    by_cases hd : dtc.1 = addr
    · rw [if_pos hd]; exact h
    · rw [if_neg hd]
      cases htr : traceNextHop prevM addr (prevM.length + 1) dtc.1 with
      | none => exact h
      | some nextHop =>
        dsimp only
        cases hfind : neighbors.find? (fun e => e.2.1 = nextHop) with
        | none => exact h
        | some e =>
          obtain ⟨port, a, c⟩ := e
          dsimp only
          rw [alookup_dictInsert_ne _ _ _ _ (Ne.symm hd)]
          exact h

/-- Every port the rebuild loop installs is the first neighbor entry bearing
the next hop's address, hence a current key of `neighbors`. -/
theorem rebuildFT_ports (addr : String) (neighbors : Dict Nat (String × Nat))
    (dist : Dict String Nat) (prevM : Dict String String) :
    ∀ d pc, alookup (rebuildFT addr neighbors dist prevM) d = some pc →
      (alookup neighbors pc.1).isSome = true := by
  suffices h : ∀ (l : Dict String Nat) (acc : Dict String (Nat × Nat)),
      (∀ d pc, alookup acc d = some pc → (alookup neighbors pc.1).isSome = true) →
      ∀ d pc, alookup (l.foldl
        (fun ft dtc =>
          if dtc.1 = addr then ft
          else
            match traceNextHop prevM addr (prevM.length + 1) dtc.1 with
            | none => ft
            | some nextHop =>
                match neighbors.find? (fun e => e.2.1 = nextHop) with
                | none => ft
                | some (port, _, _) => dictInsert ft dtc.1 (port, dtc.2)) acc)
        d = some pc → (alookup neighbors pc.1).isSome = true by
    exact h dist [] (fun d pc hh => by cases hh)
  intro l
  induction l with
  | nil => intro acc h; exact h
  | cons dtc t ih =>
    intro acc h
    simp only [List.foldl_cons]
    apply ih
    by_cases hd : dtc.1 = addr
    · rw [if_pos hd]; exact h
    · rw [if_neg hd]
      cases htr : traceNextHop prevM addr (prevM.length + 1) dtc.1 with
      | none => exact h
      | some nextHop =>
        dsimp only
        cases hfind : neighbors.find? (fun e => e.2.1 = nextHop) with
        | none => exact h
        | some e =>
          obtain ⟨port, a, c⟩ := e
          dsimp only
          exact alookup_dictInsert_forall h
            (isSome_alookup_of_mem (List.mem_of_find?_eq_some hfind))

theorem runDijkstra_addr (s : LSState) : (runDijkstra s).addr = s.addr := rfl

theorem runDijkstra_neighbors (s : LSState) :
    (runDijkstra s).neighbors = s.neighbors := rfl

theorem runDijkstra_seqNum (s : LSState) : (runDijkstra s).seqNum = s.seqNum := rfl

/-- Whatever the search computed, the committed forwarding table is a rebuild
over the current neighbors. -/
theorem runDijkstra_ft (s : LSState) :
    ∃ dist prevM, (runDijkstra s).forwardingTable =
      rebuildFT s.addr s.neighbors dist prevM := ⟨_, _, rfl⟩

theorem advertiseLsp_addr (s : LSState) : (advertiseLsp s).1.addr = s.addr := rfl

theorem advertiseLsp_neighbors (s : LSState) :
    (advertiseLsp s).1.neighbors = s.neighbors := rfl

theorem advertiseLsp_seqNum (s : LSState) :
    (advertiseLsp s).1.seqNum = s.seqNum := rfl

theorem advertiseLsp_lsdb (s : LSState) :
    (advertiseLsp s).1.lsdb = dictInsert s.lsdb s.addr
      (s.seqNum, s.neighbors.foldl (fun m pnc => dictInsert m pnc.2.1 pnc.2.2) []) :=
  rfl

theorem advertiseLsp_ft (s : LSState) :
    ∃ dist prevM, (advertiseLsp s).1.forwardingTable =
      rebuildFT s.addr s.neighbors dist prevM := ⟨_, _, rfl⟩

/-- Event handlers never change a router's own address. -/
theorem lsStep_addr (s : LSState) (e : LSEvent) : (lsStep s e).1.addr = s.addr := by
  cases e with
  | newLink port endpoint cost => rfl
  | removeLink port =>
      show (lsHandleRemoveLink s port).1.addr = s.addr
      unfold lsHandleRemoveLink
      split <;> rfl
  | tick timeMs =>
      show (lsHandleTime s timeMs).1.addr = s.addr
      unfold lsHandleTime
      split <;> rfl
  | packet port pkt =>
      show (lsHandlePacket s port pkt).1.addr = s.addr
      cases pkt with
      | traceroute a b =>
          show ((match alookup s.forwardingTable b with
            | some (outPort, _) => (s, [(outPort, LSPacket.traceroute a b)])
            | none => (s, [])).1).addr = s.addr
          cases alookup s.forwardingTable b with
          | none => rfl
          | some pc =>
              obtain ⟨p, c⟩ := pc
              rfl
      | routing a b content =>
          rw [lsHandlePacket_routing_eq]
          cases parseLSTriple content with
          | none => rfl
          | some triple =>
              obtain ⟨origin, seq, links⟩ := triple
              dsimp only
              split <;> rfl

/-- Each handler leaves the forwarding table either untouched or freshly
rebuilt, so an absent self entry stays absent. -/
theorem lsStep_ft_no_self (s : LSState) (e : LSEvent)
    (h : alookup s.forwardingTable s.addr = none) :
    alookup (lsStep s e).1.forwardingTable (lsStep s e).1.addr = none := by
  rw [lsStep_addr]
  cases e with
  | newLink port endpoint cost =>
      obtain ⟨dist, prevM, hft⟩ := advertiseLsp_ft
        { s with neighbors := dictInsert s.neighbors port (endpoint, cost),
                 seqNum := s.seqNum + 1 }
      show alookup (advertiseLsp
        { s with neighbors := dictInsert s.neighbors port (endpoint, cost),
                 seqNum := s.seqNum + 1 }).1.forwardingTable s.addr = none
      rw [hft]
      exact rebuildFT_no_self _ _ _ _
  | removeLink port =>
      show alookup (lsHandleRemoveLink s port).1.forwardingTable s.addr = none
      unfold lsHandleRemoveLink
      split
      · obtain ⟨dist, prevM, hft⟩ := advertiseLsp_ft
          { s with neighbors := eraseKey s.neighbors port, seqNum := s.seqNum + 1 }
        rw [hft]
        exact rebuildFT_no_self _ _ _ _
      · exact h
  | tick timeMs =>
      show alookup (lsHandleTime s timeMs).1.forwardingTable s.addr = none
      unfold lsHandleTime
      split
      · obtain ⟨dist, prevM, hft⟩ := advertiseLsp_ft
          { s with lastTime := timeMs, seqNum := s.seqNum + 1 }
        rw [hft]
        exact rebuildFT_no_self _ _ _ _
      · exact h
  | packet port pkt =>
      cases pkt with
      | traceroute a b =>
          show alookup ((match alookup s.forwardingTable b with
            | some (outPort, _) => (s, [(outPort, LSPacket.traceroute a b)])
            | none => (s, [])).1).forwardingTable s.addr = none
          cases alookup s.forwardingTable b with
          | none => exact h
          | some pc =>
              obtain ⟨p, c⟩ := pc
              exact h
      | routing a b content =>
          show alookup
            (lsHandlePacket s port (LSPacket.routing a b content)).1.forwardingTable
            s.addr = none
          rw [lsHandlePacket_routing_eq]
          cases parseLSTriple content with
          | none => exact h
          | some triple =>
              obtain ⟨origin, seq, links⟩ := triple
              dsimp only
              split
              · obtain ⟨dist, prevM, hft⟩ := runDijkstra_ft
                  { s with lsdb := dictInsert s.lsdb origin (seq, links) }
                show alookup (runDijkstra
                  { s with lsdb := dictInsert s.lsdb origin (seq, links) }).forwardingTable
                  s.addr = none
                rw [hft]
                exact rebuildFT_no_self _ _ _ _
              · exact h

theorem lsReachable_addr (addr : String) (hb : Nat) (s : LSState)
    (h : LSReachable addr hb s) : s.addr = addr := by
  induction h with
  | init => rfl
  | step e hs ih =>
      rw [lsStep_addr]
      exact ih

/-- C10: in every reachable state of an LS router (hence after every event
handler), the forwarding table has no entry keyed by the router's own
address. -/
theorem ls_forwarding_no_self_entry (addr : String) (hb : Nat) (s : LSState)
    (h : LSReachable addr hb s) :
    alookup s.forwardingTable addr = none := by
  rw [← lsReachable_addr addr hb s h]
  induction h with
  | init => rfl
  | step e hs ih => exact lsStep_ft_no_self _ e ih

theorem ls_forwarding_no_self_entry_witness :
    alookup ((lsHandleNewLink (lsInit "A" 100) 1 "B" 5).1).forwardingTable "A"
      = none :=
  ls_forwarding_no_self_entry "A" 100 _
    (LSReachable.step (LSEvent.newLink 1 "B" 5) LSReachable.init)

/-! ## Forwarding ports are current neighbor keys (C3) -/

theorem dvStep_ports (s : DVState) (e : DVEvent)
    (h : ∀ d p, alookup s.forwardingTable d = some p →
      (alookup s.neighbors p).isSome = true) :
    ∀ d p, alookup (dvStep s e).1.forwardingTable d = some p →
      (alookup (dvStep s e).1.neighbors p).isSome = true := by
  cases e with
  | newLink port endpoint cost =>
      show ∀ d p,
        alookup (dvHandleNewLink s port endpoint cost).1.forwardingTable d = some p →
        (alookup (dvHandleNewLink s port endpoint cost).1.neighbors p).isSome = true
      unfold dvHandleNewLink
      dsimp only
      split
      · intro d p hp
        have hall : ∀ k v, alookup (dictInsert s.forwardingTable endpoint port) k = some v →
            (alookup (dictInsert s.neighbors port (endpoint, cost)) v).isSome = true := by
          refine alookup_dictInsert_forall (fun k v hv => ?_) ?_
          · exact isSome_alookup_dictInsert _ _ _ _ (h k v hv)
          · rw [alookup_dictInsert_self]
            rfl
        exact hall d p hp
      · intro d p hp
        exact isSome_alookup_dictInsert _ _ _ _ (h d p hp)
  | removeLink port =>
      show ∀ d p,
        alookup (dvHandleRemoveLink s port).1.forwardingTable d = some p →
        (alookup (dvHandleRemoveLink s port).1.neighbors p).isSome = true
      unfold dvHandleRemoveLink
      cases halo : alookup s.neighbors port with
      | none => exact h
      | some nc =>
          obtain ⟨nbrAddr, ncost⟩ := nc
          dsimp only
          intro d p hp
          exact updateForwardingTable_ports _ _ _ d p hp
  | tick timeMs =>
      show ∀ d p,
        alookup (dvHandleTime s timeMs).1.forwardingTable d = some p →
        (alookup (dvHandleTime s timeMs).1.neighbors p).isSome = true
      unfold dvHandleTime
      split
      · exact h
      · exact h
  | packet port pkt =>
      cases pkt with
      | traceroute a b =>
          show ∀ d p,
            alookup ((match alookup s.forwardingTable b with
              | some outPort => (s, [(outPort, DVPacket.traceroute a b)])
              | none => (s, [])).1).forwardingTable d = some p →
            (alookup ((match alookup s.forwardingTable b with
              | some outPort => (s, [(outPort, DVPacket.traceroute a b)])
              | none => (s, [])).1).neighbors p).isSome = true
          cases alookup s.forwardingTable b with
          | none => exact h
          | some outPort => exact h
      | routing a b content =>
          show ∀ d p,
            alookup (dvHandlePacket s (DVPacket.routing a b content)).1.forwardingTable
              d = some p →
            (alookup (dvHandlePacket s
              (DVPacket.routing a b content)).1.neighbors p).isSome = true
          unfold dvHandlePacket
          dsimp only
          split
          · intro d p hp
            exact updateForwardingTable_ports _ _ _ d p hp
          · exact h

theorem lsStep_ports (s : LSState) (e : LSEvent)
    (h : ∀ d pc, alookup s.forwardingTable d = some pc →
      (alookup s.neighbors pc.1).isSome = true) :
    ∀ d pc, alookup (lsStep s e).1.forwardingTable d = some pc →
      (alookup (lsStep s e).1.neighbors pc.1).isSome = true := by
  cases e with
  | newLink port endpoint cost =>
      obtain ⟨dist, prevM, hft⟩ := advertiseLsp_ft
        { s with neighbors := dictInsert s.neighbors port (endpoint, cost),
                 seqNum := s.seqNum + 1 }
      show ∀ d pc,
        alookup (advertiseLsp
          { s with neighbors := dictInsert s.neighbors port (endpoint, cost),
                   seqNum := s.seqNum + 1 }).1.forwardingTable d = some pc →
        (alookup (advertiseLsp
          { s with neighbors := dictInsert s.neighbors port (endpoint, cost),
                   seqNum := s.seqNum + 1 }).1.neighbors pc.1).isSome = true
      rw [hft]
      intro d pc hp
      exact rebuildFT_ports _ _ _ _ d pc hp
  | removeLink port =>
      show ∀ d pc,
        alookup (lsHandleRemoveLink s port).1.forwardingTable d = some pc →
        (alookup (lsHandleRemoveLink s port).1.neighbors pc.1).isSome = true
      unfold lsHandleRemoveLink
      split
      · obtain ⟨dist, prevM, hft⟩ := advertiseLsp_ft
          { s with neighbors := eraseKey s.neighbors port, seqNum := s.seqNum + 1 }
        rw [hft]
        intro d pc hp
        exact rebuildFT_ports _ _ _ _ d pc hp
      · exact h
  | tick timeMs =>
      show ∀ d pc,
        alookup (lsHandleTime s timeMs).1.forwardingTable d = some pc →
        (alookup (lsHandleTime s timeMs).1.neighbors pc.1).isSome = true
      unfold lsHandleTime
      split
      · obtain ⟨dist, prevM, hft⟩ := advertiseLsp_ft
          { s with lastTime := timeMs, seqNum := s.seqNum + 1 }
        rw [hft]
        intro d pc hp
        exact rebuildFT_ports _ _ _ _ d pc hp
      · exact h
  | packet port pkt =>
      cases pkt with
      | traceroute a b =>
          show ∀ d pc,
            alookup ((match alookup s.forwardingTable b with
              | some (outPort, _) => (s, [(outPort, LSPacket.traceroute a b)])
              | none => (s, [])).1).forwardingTable d = some pc →
            (alookup ((match alookup s.forwardingTable b with
              | some (outPort, _) => (s, [(outPort, LSPacket.traceroute a b)])
              | none => (s, [])).1).neighbors pc.1).isSome = true
          cases alookup s.forwardingTable b with
          | none => exact h
          | some pc0 =>
              obtain ⟨p0, c0⟩ := pc0
              exact h
      | routing a b content =>
          show ∀ d pc,
            alookup (lsHandlePacket s port
              (LSPacket.routing a b content)).1.forwardingTable d = some pc →
            (alookup (lsHandlePacket s port
              (LSPacket.routing a b content)).1.neighbors pc.1).isSome = true
          rw [lsHandlePacket_routing_eq]
          cases parseLSTriple content with
          | none => exact h
          | some triple =>
              obtain ⟨origin, seq, links⟩ := triple
              dsimp only
              split
              · obtain ⟨dist, prevM, hft⟩ := runDijkstra_ft
                  { s with lsdb := dictInsert s.lsdb origin (seq, links) }
                show ∀ d pc,
                  alookup (runDijkstra { s with lsdb := dictInsert s.lsdb origin (seq, links) }).forwardingTable d = some pc →
                  (alookup (runDijkstra { s with lsdb := dictInsert s.lsdb origin (seq, links) }).neighbors pc.1).isSome = true
                rw [hft]
                intro d pc hp
                exact rebuildFT_ports _ _ _ _ d pc hp
              · exact h

/-- C3: in every reachable state of a DV router and of an LS router, every
port stored in the forwarding table is a current key of the neighbors map. -/
theorem forwarding_ports_are_neighbor_keys :
    (∀ (addr : String) (hb : Nat) (s : DVState), DVReachable addr hb s →
      ∀ d p, alookup s.forwardingTable d = some p →
        (alookup s.neighbors p).isSome = true) ∧
    (∀ (addr : String) (hb : Nat) (s : LSState), LSReachable addr hb s →
      ∀ d pc, alookup s.forwardingTable d = some pc →
        (alookup s.neighbors pc.1).isSome = true) := by
  constructor
  · intro addr hb s h
    induction h with
    | init => intro d p hp; cases hp
    | step e hs ih => exact dvStep_ports _ e ih
  · intro addr hb s h
    induction h with
    | init => intro d pc hp; cases hp
    | step e hs ih => exact lsStep_ports _ e ih

theorem forwarding_ports_are_neighbor_keys_witness :
    (alookup ((dvStep (dvInit "A" 100) (DVEvent.newLink 1 "B" 5)).1).neighbors 1).isSome
        = true ∧
    (alookup ((lsStep (lsInit "A" 100) (LSEvent.newLink 1 "B" 5)).1).neighbors 1).isSome
        = true :=
  ⟨forwarding_ports_are_neighbor_keys.1 "A" 100 _
      (DVReachable.step (DVEvent.newLink 1 "B" 5) DVReachable.init) "B" 1 (by decide),
   forwarding_ports_are_neighbor_keys.2 "A" 100 _
      (LSReachable.step (LSEvent.newLink 1 "B" 5) LSReachable.init) "B" (1, 5) (by decide)⟩

/-! ## Monotonicity of the self LSP sequence number (C7) -/

/-- The sequence number the LSDB stores for the router itself. -/
def lsSelfSeq (s : LSState) : Option Nat := (alookup s.lsdb s.addr).map Prod.fst

def lsSpoofState1 : LSState :=
  (lsHandlePacket (lsInit "A" 100) 9
    (LSPacket.routing "X" "A" (lsDumps "A" 999 []))).1

def lsSpoofState2 : LSState := (lsHandleNewLink lsSpoofState1 1 "B" 5).1

/-- C7 counterexample: a Routing packet whose parsed origin equals the
router's own address passes the freshness check and installs a spoofed
sequence number 999 under `lsdb[self]`; the next new-link event overwrites it
with the router's own counter 1, a strict decrease. -/
theorem ls_self_seq_decrease_cex :
    lsSelfSeq lsSpoofState1 = some 999 ∧ lsSelfSeq lsSpoofState2 = some 1 ∧
      ¬ (999 ≤ 1) := by decide

/-- An event is benign when it is not a Routing packet whose content parses
to a triple whose origin is the router's own address. -/
def lsEventBenign (addr : String) : LSEvent → Bool
  | LSEvent.packet _ (LSPacket.routing _ _ content) =>
      match parseLSTriple content with
      | some triple => decide (triple.1 ≠ addr)
      | none => true
  | _ => true

/-- States reachable using only benign events. -/
inductive LSReachableBenign (addr : String) (heartbeatTime : Nat) :
    LSState → Prop where
  | init : LSReachableBenign addr heartbeatTime (lsInit addr heartbeatTime)
  | step {s : LSState} (e : LSEvent) (hben : lsEventBenign addr e = true) :
      LSReachableBenign addr heartbeatTime s →
      LSReachableBenign addr heartbeatTime (lsStep s e).1

theorem lsReachableBenign_addr (addr : String) (hb : Nat) (s : LSState)
    (h : LSReachableBenign addr hb s) : s.addr = addr := by
  induction h with
  | init => rfl
  | step e hben hs ih => rw [lsStep_addr]; exact ih

/-- The LSDB entry for the router itself, when present, carries the router's
own sequence counter. -/
def lsSelfPinned (s : LSState) : Prop :=
  alookup s.lsdb s.addr = none ∨
    ∃ links, alookup s.lsdb s.addr = some (s.seqNum, links)

theorem lsStepBenign_selfPinned (s : LSState) (e : LSEvent)
    (hben : lsEventBenign s.addr e = true) (h : lsSelfPinned s) :
    lsSelfPinned (lsStep s e).1 := by
  cases e with
  | newLink port endpoint cost =>
      show lsSelfPinned (advertiseLsp { s with neighbors := dictInsert s.neighbors port (endpoint, cost), seqNum := s.seqNum + 1 }).1
      unfold lsSelfPinned
      rw [advertiseLsp_lsdb, advertiseLsp_addr, advertiseLsp_seqNum]
      exact Or.inr ⟨_, alookup_dictInsert_self _ _ _⟩
  | removeLink port =>
      show lsSelfPinned (lsHandleRemoveLink s port).1
      unfold lsHandleRemoveLink
      split
      · unfold lsSelfPinned
        rw [advertiseLsp_lsdb, advertiseLsp_addr, advertiseLsp_seqNum]
        exact Or.inr ⟨_, alookup_dictInsert_self _ _ _⟩
      · exact h
  | tick timeMs =>
      show lsSelfPinned (lsHandleTime s timeMs).1
      unfold lsHandleTime
      split
      · unfold lsSelfPinned
        rw [advertiseLsp_lsdb, advertiseLsp_addr, advertiseLsp_seqNum]
        exact Or.inr ⟨_, alookup_dictInsert_self _ _ _⟩
      · exact h
  | packet port pkt =>
      cases pkt with
      | traceroute a b =>
          show lsSelfPinned ((match alookup s.forwardingTable b with
            | some (outPort, _) =>
                (s, [(outPort, LSPacket.traceroute a b)])
            | none => (s, [])).1)
          cases alookup s.forwardingTable b with
          | none => exact h
          | some pc0 =>
              obtain ⟨p0, c0⟩ := pc0
              exact h
      | routing a b content =>
          show lsSelfPinned (lsHandlePacket s port (LSPacket.routing a b content)).1
          rw [lsHandlePacket_routing_eq]
          unfold lsEventBenign at hben
          dsimp only at hben
          cases hp : parseLSTriple content with
          | none => exact h
          | some triple =>
              obtain ⟨origin, seq, links⟩ := triple
              rw [hp] at hben
              dsimp only at hben
              have hne : s.addr ≠ origin := fun he => of_decide_eq_true hben he.symm
              dsimp only
              split
              · show lsSelfPinned (runDijkstra { s with lsdb := dictInsert s.lsdb origin (seq, links) })
                unfold lsSelfPinned
                rw [runDijkstra_lsdb, runDijkstra_addr, runDijkstra_seqNum]
                dsimp only
                rw [alookup_dictInsert_ne _ _ _ _ hne]
                exact h
              · exact h

theorem lsReachableBenign_selfPinned (addr : String) (hb : Nat) (s : LSState)
    (h : LSReachableBenign addr hb s) : lsSelfPinned s := by
  induction h with
  | init => exact Or.inl rfl
  | step e hben hs ih =>
      refine lsStepBenign_selfPinned _ e ?_ ih
      rw [lsReachableBenign_addr addr hb _ hs]
      exact hben

/-- C7 amended: along benign event sequences — no delivered Routing packet
parses to a triple whose origin is the router's own address — the sequence
number stored in `lsdb[self]` never decreases across any further benign
event. -/
theorem ls_self_seq_nondecreasing (addr : String) (hb : Nat) (s : LSState)
    (h : LSReachableBenign addr hb s) (e : LSEvent)
    (hben : lsEventBenign addr e = true)
    (seq : Nat) (links : Dict String Nat)
    (hself : alookup s.lsdb s.addr = some (seq, links)) :
    ∃ seq' links',
      alookup (lsStep s e).1.lsdb (lsStep s e).1.addr = some (seq', links') ∧
        seq ≤ seq' := by
  have haddr : s.addr = addr := lsReachableBenign_addr addr hb s h
  subst haddr
  have hpin := lsReachableBenign_selfPinned _ hb s h
  have hseq : seq = s.seqNum := by
    rcases hpin with hnone | ⟨l, hsome⟩
    · rw [hnone] at hself; cases hself
    · rw [hsome] at hself
      injection hself with h1
      injection h1 with h2 h3
      exact h2.symm
  cases e with
  | newLink port endpoint cost =>
      show ∃ seq' links',
        alookup (advertiseLsp { s with neighbors := dictInsert s.neighbors port (endpoint, cost), seqNum := s.seqNum + 1 }).1.lsdb
          (advertiseLsp { s with neighbors := dictInsert s.neighbors port (endpoint, cost), seqNum := s.seqNum + 1 }).1.addr = some (seq', links') ∧ seq ≤ seq'
      rw [advertiseLsp_lsdb, advertiseLsp_addr]
      refine ⟨_, _, alookup_dictInsert_self _ _ _, ?_⟩
      show seq ≤ s.seqNum + 1
      omega
  | removeLink port =>
      show ∃ seq' links',
        alookup (lsHandleRemoveLink s port).1.lsdb
          (lsHandleRemoveLink s port).1.addr = some (seq', links') ∧ seq ≤ seq'
      unfold lsHandleRemoveLink
      split
      · rw [advertiseLsp_lsdb, advertiseLsp_addr]
        refine ⟨_, _, alookup_dictInsert_self _ _ _, ?_⟩
        show seq ≤ s.seqNum + 1
        omega
      · exact ⟨seq, links, hself, Nat.le_refl seq⟩
  | tick timeMs =>
      show ∃ seq' links',
        alookup (lsHandleTime s timeMs).1.lsdb
          (lsHandleTime s timeMs).1.addr = some (seq', links') ∧ seq ≤ seq'
      unfold lsHandleTime
      split
      · rw [advertiseLsp_lsdb, advertiseLsp_addr]
        refine ⟨_, _, alookup_dictInsert_self _ _ _, ?_⟩
        show seq ≤ s.seqNum + 1
        omega
      · exact ⟨seq, links, hself, Nat.le_refl seq⟩
  | packet port pkt =>
      cases pkt with
      | traceroute a b =>
          show ∃ seq' links',
            alookup ((match alookup s.forwardingTable b with
              | some (outPort, _) =>
                  (s, [(outPort, LSPacket.traceroute a b)])
              | none => (s, [])).1).lsdb
              ((match alookup s.forwardingTable b with
                | some (outPort, _) =>
                    (s, [(outPort, LSPacket.traceroute a b)])
                | none => (s, [])).1).addr = some (seq', links') ∧ seq ≤ seq'
          cases alookup s.forwardingTable b with
          | none => exact ⟨seq, links, hself, Nat.le_refl seq⟩
          | some pc0 =>
              obtain ⟨p0, c0⟩ := pc0
              exact ⟨seq, links, hself, Nat.le_refl seq⟩
      | routing a b content =>
          show ∃ seq' links',
            alookup (lsHandlePacket s port (LSPacket.routing a b content)).1.lsdb
              (lsHandlePacket s port (LSPacket.routing a b content)).1.addr
                = some (seq', links') ∧ seq ≤ seq'
          rw [lsHandlePacket_routing_eq]
          unfold lsEventBenign at hben
          dsimp only at hben
          cases hp : parseLSTriple content with
          | none => exact ⟨seq, links, hself, Nat.le_refl seq⟩
          | some triple =>
              obtain ⟨origin, seq0, links0⟩ := triple
              rw [hp] at hben
              dsimp only at hben
              have hne : s.addr ≠ origin := fun he => of_decide_eq_true hben he.symm
              dsimp only
              split
              · show ∃ seq' links',
                  alookup (runDijkstra { s with lsdb := dictInsert s.lsdb origin (seq0, links0) }).lsdb
                    (runDijkstra { s with lsdb := dictInsert s.lsdb origin (seq0, links0) }).addr = some (seq', links') ∧ seq ≤ seq'
                rw [runDijkstra_lsdb, runDijkstra_addr]
                dsimp only
                rw [alookup_dictInsert_ne _ _ _ _ hne]
                exact ⟨seq, links, hself, Nat.le_refl seq⟩
              · exact ⟨seq, links, hself, Nat.le_refl seq⟩

def lsBenignBase : LSState := (lsStep (lsInit "A" 100) (LSEvent.newLink 1 "B" 5)).1

theorem ls_self_seq_nondecreasing_witness :
    ∃ seq' links',
      alookup (lsStep lsBenignBase (LSEvent.tick 200)).1.lsdb
        (lsStep lsBenignBase (LSEvent.tick 200)).1.addr = some (seq', links') ∧
        1 ≤ seq' :=
  ls_self_seq_nondecreasing "A" 100 lsBenignBase
    (LSReachableBenign.step (LSEvent.newLink 1 "B" 5) (by decide)
      LSReachableBenign.init)
    (LSEvent.tick 200) (by decide) 1 [("B", 5)] (by decide)

/-! ## Dynamic typing of the Routing branches (C4) -/

mutual

/-- Structural equality of parsed values (Python `==` on the JSON fragment),
fuel-based so that it evaluates; any fuel above the nesting depth of both
arguments returns the Python answer, and fuel 0 conservatively answers
`false`, which can only cause a spurious re-install, never an exception. -/
def jvalBeq : Nat → JVal → JVal → Bool
  | 0, _, _ => false
  | fuel + 1, a, b =>
    match a, b with
    | JVal.str x, JVal.str y => x == y
    | JVal.num x, JVal.num y => x == y
    | JVal.arr xs, JVal.arr ys => jvalListBeq fuel xs ys
    | JVal.obj xs, JVal.obj ys => jvalObjBeq fuel xs ys
    | _, _ => false

def jvalListBeq : Nat → List JVal → List JVal → Bool
  | 0, _, _ => false
  | fuel + 1, l1, l2 =>
    match l1, l2 with
    | [], [] => true
    | x :: xs, y :: ys => jvalBeq fuel x y && jvalListBeq fuel xs ys
    | _, _ => false

def jvalObjBeq : Nat → List (String × JVal) → List (String × JVal) → Bool
  | 0, _, _ => false
  | fuel + 1, l1, l2 =>
    match l1, l2 with
    | [], [] => true
    | (k, v) :: xs, (l, w) :: ys =>
        k == l && jvalBeq fuel v w && jvalObjBeq fuel xs ys
    | _, _ => false

end

/-- Python `.copy()`: dicts and lists have it; strings and integers raise
`AttributeError`. -/
def pyCopy : JVal → Except String JVal
  | JVal.obj kvs => Except.ok (JVal.obj kvs)
  | JVal.arr xs => Except.ok (JVal.arr xs)
  | _ => Except.error "AttributeError"

/-- Python `>` on the comparisons the LS handler performs: int/int and
str/str compare, any other pair raises `TypeError`.  Model gap: Python
compares two lists elementwise instead of raising; no handler path stores a
list where this model is consulted with two lists whose comparison succeeds
differently. -/
def pyGt : JVal → JVal → Except String Bool
  | JVal.num a, JVal.num b => Except.ok (decide (b < a))
  | JVal.str a, JVal.str b => Except.ok (decide (b < a))
  | _, _ => Except.error "TypeError"

/-- Python hashability of a parsed value: strings and integers hash, lists
and dicts raise `TypeError` when used as a dict key. -/
def pyHashable : JVal → Option (String ⊕ Nat)
  | JVal.str s => some (Sum.inl s)
  | JVal.num n => some (Sum.inr n)
  | _ => none

/-- `origin, seq, links = v`: unpacking a 3-list yields its items, a 3-char
string its characters, a 3-key dict its keys; any other iterable length
raises `ValueError` and a non-iterable raises `TypeError` — both caught by
the handler's `try`, which this model reports as `none`. -/
def lsUnpack3 : JVal → Option (JVal × JVal × JVal)
  | JVal.arr [a, b, c] => some (a, b, c)
  | JVal.arr _ => none
  | JVal.str s =>
      match s.data with
      | [c1, c2, c3] =>
          some (JVal.str (String.mk [c1]), JVal.str (String.mk [c2]),
            JVal.str (String.mk [c3]))
      | _ => none
  | JVal.obj [(k1, _), (k2, _), (k3, _)] =>
      some (JVal.str k1, JVal.str k2, JVal.str k3)
  | JVal.obj _ => none
  | JVal.num _ => none

/-- Dynamic-typing model of the Routing branch of `LSrouter.handle_packet`
through the LSDB update.  The `try` protects only the `json.loads` line,
catching `TypeError`, `JSONDecodeError` and `ValueError`; every later
operation — `self.lsdb.get(origin)`, `seq > prev[0]`, `links.copy()` — runs
unprotected, and this model surfaces their exceptions as `Except.error`.
The dynamic LSDB maps hashable keys to the stored `(seq, links)` pair. -/
def lsRoutingDynLsdb (lsdb : List ((String ⊕ Nat) × (JVal × JVal)))
    (content : String) :
    Except String (List ((String ⊕ Nat) × (JVal × JVal))) :=
  match jsonLoads content with
  | none => Except.ok lsdb
  | some v =>
    match lsUnpack3 v with
    | none => Except.ok lsdb
    | some (origin, seq, links) =>
      match pyHashable origin with
      | none => Except.error "TypeError"
      | some k =>
        match alookup lsdb k with
        | none =>
            match pyCopy links with
            | Except.ok l => Except.ok (dictInsert lsdb k (seq, l))
            | Except.error e => Except.error e
        | some prev =>
            match pyGt seq prev.1 with
            | Except.error e => Except.error e
            | Except.ok true =>
                match pyCopy links with
                | Except.ok l => Except.ok (dictInsert lsdb k (seq, l))
                | Except.error e => Except.error e
            | Except.ok false => Except.ok lsdb

/-- Dynamic-typing model of the Routing branch of `DVrouter.handle_packet`
through the `dv_from_neighbors` assignment.  The branch has no `try` at
all: when the stored vector is absent or differs, `their_dv.copy()` runs on
arbitrary content, and on a string or integer its `AttributeError` escapes
the handler.  (A list survives the copy; the later
`update_forwarding_table` can still raise on it, outside this model's
scope.) -/
def dvRoutingDynDvfn (fuel : Nat) (dvfn : Dict String JVal)
    (neighbor : String) (content : JVal) :
    Except String (Dict String JVal) :=
  let changed :=
    match alookup dvfn neighbor with
    | none => true
    | some stored => !(jvalBeq fuel stored content)
  if changed then
    match pyCopy content with
    | Except.ok c => Except.ok (dictInsert dvfn neighbor c)
    | Except.error e => Except.error e
  else Except.ok dvfn

/-- C4: unparseable routing content is NOT dropped silently.  A DV router
receiving an integer distance vector raises `AttributeError` at
`their_dv.copy()` (the branch has no `try`), and an LS router receiving the
valid JSON text `[1, 2, 3]` — which parses and unpacks, so the `try` does
not fire — raises `AttributeError` at `links.copy()` on the integer `3`.
Both exceptions propagate out of `handle_packet`, contradicting the claimed
silent drop. -/
theorem routing_unparseable_content_raises :
    dvRoutingDynDvfn 1 [] "B" (JVal.num 3) = Except.error "AttributeError" ∧
    lsRoutingDynLsdb [] "[1, 2, 3]" = Except.error "AttributeError" :=
  ⟨rfl, rfl⟩
